import Mathlib

/-!
Verification of the Zapper front-end (compilation pipeline and ledger) against
its natural-language specification.  The definitions below are a shallow
embedding of the Python sources under `frontend/zapper/`: each definition's
doc comment names the Python function or class it translates.  Python sets are
modelled as `Finset`, Python dicts as association lists (first match wins, as
Python lookups are modelled through the same helper everywhere), Python
exceptions as an explicit error type threaded through `Except`.
-/

namespace Zapper

/-- The Python exception kinds raised by the modelled code
(`TxRejectedException`, `ValueError`, `AssertionError`, `RecursionError`,
`AssemblyTypeError`, `AssemblySecurityException`, `KeyError`, `IndexError`). -/
inductive PyErr where
  | txRejected (msg : String)
  | valueError (msg : String)
  | assertionError (msg : String)
  | recursionError (msg : String)
  | typeError (msg : String)
  | securityError (msg : String)
  | keyError (msg : String)
  | indexError (msg : String)
deriving DecidableEq

/-- True exactly on a `TxRejectedException` outcome (used to state claims about
the rejection kind of `Ledger.verify_and_execute_transaction`). -/
def resultIsTxRejected {α : Type} : Except PyErr α → Bool
  | .error (.txRejected _) => true
  | _ => false

/-- True exactly on a `RecursionError` outcome (used to state the claimed
error kind of the inlining phase). -/
def resultIsRecursionError {α : Type} : Except PyErr α → Bool
  | .error (.recursionError _) => true
  | _ => false

/-! ## Ledger (`frontend/zapper/ledger/ledger.py`, `transaction.py`)

The Merkle tree and the proof verifier live in the Rust back-end
(`zapper_backend`), outside the front-end sources; they are abstracted as the
type parameter `M` with an `insert`/`get_root` interface and as an optional
verification function.  `F` abstracts the `SerializedFunction` payload, which
the ledger only stores and passes through. -/

/-- `Transaction` (`ledger/transaction.py`): the wire shape submitted to the
ledger. -/
structure Transaction where
  class_name : String
  function_name : String
  merkle_tree_root : String
  consumed_serials : List String
  new_records : List String
  proof : Option String
  unique_seed : String
  current_time : Int
deriving DecidableEq

/-- The back-end interface the ledger uses: `MerkleTree.insert`,
`MerkleTree.get_root`, and the optional `Verifier` (`None` when the ledger is
constructed with `dbg_no_proof=True`).  A verifier call is given the
transaction, the stored serialized function and the ledger's current time; it
returns `.error msg` when `Verifier.verify` raises and `.ok b` when it returns
the boolean `b`. -/
structure Backend (M F : Type) where
  insert : M → Nat → String → M
  get_root : M → String
  verifier : Option (Transaction → F → Int → Except String Bool)

/-- The mutable state of `Ledger` (fields of `Ledger.__init__` that
`verify_and_execute_transaction`, `register_classes` and
`test_increase_current_time_by` touch). -/
structure LedgerState (M F : Type) where
  serialized_functions : List ((String × String) × F)
  published_serial_numbers : Finset String
  published_unique_seeds : Finset String
  merkle_tree : M
  next_record_idx : Nat
  accepted_transactions : List (Finset String × List String)
  current_time : Int

/-- `add_to_set_check_unique` (`ledger/ledger.py`): add `elem` to the set,
reporting whether it was new. -/
def add_to_set_check_unique (s : Finset String) (elem : String) : Bool × Finset String :=
  if elem ∈ s then (false, s) else (true, insert elem s)

/-- The first loop of `verify_and_execute_transaction`: collect
`transaction_serials` with `add_to_set_check_unique`, `none` on the first
duplicate. -/
def collectTransactionSerials (acc : Finset String) : List String → Option (Finset String)
  | [] => some acc
  | serial :: rest =>
    match add_to_set_check_unique acc serial with
    | (false, _) => none
    | (true, acc') => collectTransactionSerials acc' rest

/-- Dictionary lookup `self.serialized_functions[(class_name, function_name)]`
together with the membership test of `Ledger.get_serialized_function`. -/
def lookupSerialized {F : Type} (fns : List ((String × String) × F))
    (class_name function_name : String) : Option F :=
  List.lookup (class_name, function_name) fns

/-- The Merkle insertion loop of `verify_and_execute_transaction`: insert each
new record at `next_record_idx`, incrementing the index. -/
def insertRecords {M F : Type} (B : Backend M F) (m : M) (idx : Nat) :
    List String → M × Nat
  | [] => (m, idx)
  | r :: rest => insertRecords B (B.insert m idx r) (idx + 1) rest

/-- The verifier block of `verify_and_execute_transaction`: skipped when no
verifier is configured; a raising verifier and a `False` verdict both reject
with `TxRejectedException`. -/
def runProofCheck {M F : Type} (B : Backend M F) (t : Transaction)
    (serialized_function : F) (time : Int) : Except PyErr Unit :=
  match B.verifier with
  | none => .ok ()
  | some verify =>
    match verify t serialized_function time with
    | .error e => .error (.txRejected ("proof verification raised an error: " ++ e))
    | .ok false => .error (.txRejected "proof verification failed")
    | .ok true => .ok ()

/-- `Ledger.verify_and_execute_transaction` (`ledger/ledger.py`): the guard
sequence runs first and each failure raises; every state field is written only
after all guards have passed, so a rejection returns the error with the state
untouched.  The unknown-function case goes through
`Ledger.get_serialized_function`, which raises `ValueError`, not
`TxRejectedException`. -/
def verify_and_execute_transaction {M F : Type} (B : Backend M F)
    (s : LedgerState M F) (t : Transaction) : Except PyErr (LedgerState M F) :=
  match collectTransactionSerials ∅ t.consumed_serials with
  | none => .error (.txRejected "serial numbers of transaction not unique")
  | some transaction_serials =>
    if (transaction_serials ∩ s.published_serial_numbers).card ≠ 0 then
      .error (.txRejected "at least one serial number of transaction has been observed earlier")
    else if t.unique_seed ∈ s.published_unique_seeds then
      .error (.txRejected "unique_seed has been observed earlier")
    else if t.merkle_tree_root ≠ B.get_root s.merkle_tree then
      .error (.txRejected "transaction root does not match current merkle tree root")
    else if t.current_time ≠ s.current_time then
      .error (.txRejected "timestamp of transaction invalid")
    else
      match lookupSerialized s.serialized_functions t.class_name t.function_name with
      | none => .error (.valueError ("unknown function " ++ t.class_name ++ "." ++
          t.function_name ++ " or function not public"))
      | some serialized_function =>
        match runProofCheck B t serialized_function s.current_time with
        | .error e => .error e
        | .ok () =>
          match insertRecords B s.merkle_tree s.next_record_idx t.new_records with
          | (m', idx') =>
            .ok { s with
              published_serial_numbers := s.published_serial_numbers ∪ transaction_serials,
              published_unique_seeds := insert t.unique_seed s.published_unique_seeds,
              merkle_tree := m',
              next_record_idx := idx',
              accepted_transactions :=
                s.accepted_transactions ++ [(transaction_serials, t.new_records)] }

/-- The ledger operations that touch `Ledger` state: a
`verify_and_execute_transaction` call, the `serialized_functions` additions of
`register_classes` (which never touches serials, seeds, tree or history), and
`test_increase_current_time_by`. -/
inductive LedgerOp (F : Type) where
  | txOp (t : Transaction)
  | registerOp (entries : List ((String × String) × F))
  | incTimeOp (amount : Int)

/-- Apply one ledger operation.  A rejected transaction leaves the state as it
was (the Python method raises after mutating nothing). -/
def applyOp {M F : Type} (B : Backend M F) (s : LedgerState M F) :
    LedgerOp F → LedgerState M F
  | .txOp t =>
    match verify_and_execute_transaction B s t with
    | .ok s' => s'
    | .error _ => s
  | .registerOp entries =>
    { s with serialized_functions :=
        entries.foldl (fun acc kv => kv :: acc) s.serialized_functions }
  | .incTimeOp amount => { s with current_time := s.current_time + amount }

/-- Run a sequence of ledger operations. -/
def runOps {M F : Type} (B : Backend M F) (s : LedgerState M F) :
    List (LedgerOp F) → LedgerState M F
  | [] => s
  | op :: rest => runOps B (applyOp B s op) rest

/-! ## Assembly IR (`frontend/zapper/assembly/`)

Registers are identified by their `label` string (`values.py`: a `Register`
carries a label, and `Register.clone(postfix)` builds
`Register(label + '#' + postfix)`).  The pipeline checks, before inlining and
allocation run, that no two distinct register objects share a label within a
function and that no register object is shared across functions, so labels are
a faithful identity for the stages modelled here. -/

/-- `BinaryOperator` (`assembly/binary_operations.py`). -/
inductive BinaryOperator where
  | plus | minus | multiply | equals | less
deriving DecidableEq

/-- A `Value` operand (`assembly/values.py`): a `Register`, a `Constant`, a
linked `FieldReference` (identified by the field name) or a `ClassReference`
(identified by the class name). -/
inductive Val where
  | reg (label : String)
  | const (value : Int)
  | fldRef (fieldName : String)
  | clsRef (className : String)
deriving DecidableEq

/-- The instruction set (`assembly/instructions/`), with operands in the
`register` / `value_1` / `value_2` slots used by the Python constructors.
`call` keeps the linked callee as a `(class, function)` name pair plus its
`call_arguments` and `sender_is_self` flag. -/
inductive Instr where
  | noop
  | mov (dst : String) (src : Val)
  | cmov (dst : String) (cond src : Val)
  | req (cond : Val)
  | load (dst : String) (obj : Val) (fld : Val)
  | store (src : String) (obj : Val) (fld : Val)
  | kill (obj : Val)
  | pk (dst : String) (obj : Val)
  | new (dst : String) (className : String)
  | cid (dst : String) (obj : Val)
  | fresh (dst : String)
  | now (dst : String)
  | binop (op : BinaryOperator) (dst : String) (v1 v2 : Val)
  | call (dst : String) (cls fn : String) (senderIsSelf : Bool) (args : List Val)
deriving DecidableEq

/-- The register content of a `Value` operand (`isinstance(a, Register)`). -/
def regsOfVal : Val → List String
  | .reg label => [label]
  | _ => []

/-- `Instruction.get_registers`: the registers among
`[self.register, self.value_1, self.value_2]`, except for `CALL`, whose
`get_arguments` override returns `[self.destination] + self.call_arguments`. -/
def Instr.get_registers : Instr → List String
  | .noop => []
  | .mov dst src => dst :: regsOfVal src
  | .cmov dst cond src => dst :: (regsOfVal cond ++ regsOfVal src)
  | .req cond => regsOfVal cond
  | .load dst obj fld => dst :: (regsOfVal obj ++ regsOfVal fld)
  | .store src obj fld => src :: (regsOfVal obj ++ regsOfVal fld)
  | .kill obj => regsOfVal obj
  | .pk dst obj => dst :: regsOfVal obj
  | .new dst _ => [dst]
  | .cid dst obj => dst :: regsOfVal obj
  | .fresh dst => [dst]
  | .now dst => [dst]
  | .binop _ dst v1 v2 => dst :: (regsOfVal v1 ++ regsOfVal v2)
  | .call dst _ _ _ args => dst :: args.flatMap regsOfVal

/-- `isinstance(i, CallInstruction)`. -/
def Instr.isCall : Instr → Bool
  | .call _ _ _ _ _ => true
  | _ => false

/-- `isinstance(i, NewInstruction)`. -/
def Instr.isNew : Instr → Bool
  | .new _ _ => true
  | _ => false

/-- `AssemblyFunction` (`assembly/functions.py`): name, instruction list, the
`me` register, argument registers, return register, the auxiliary
runtime-type-check list and the flags. -/
structure AFunction where
  function_name : String
  instructions : List Instr
  me_register : String
  argument_registers : List String
  return_register : String
  runtime_type_check_instructions : List Instr
  is_constructor : Bool
  is_private : Bool
  is_private_for : Option String
deriving DecidableEq

/-- `AssemblyFunction.get_all_instructions`:
`runtime_type_check_instructions + instructions`. -/
def AFunction.get_all_instructions (f : AFunction) : List Instr :=
  f.runtime_type_check_instructions ++ f.instructions

/-! ## Register label check (`AssemblyFunction.check_register_labels`,
`utils/general.py`), claim C7.

The Python method collects the function's distinct register objects and their
labels; the check itself only consumes the label list, which is what the model
takes (one entry per distinct register object). -/

/-- `get_duplicates` (`utils/general.py`): elements already seen when the scan
reaches them, in scan order. -/
def get_duplicates_go (seen : Finset String) (dups : List String) :
    List String → List String
  | [] => dups
  | x :: rest =>
    if x ∈ seen then get_duplicates_go seen (dups ++ [x]) rest
    else get_duplicates_go (insert x seen) dups rest

/-- `get_duplicates` (`utils/general.py`). -/
def get_duplicates (l : List String) : List String := get_duplicates_go ∅ [] l

/-- Render a name list the way `' '.join(...)` does. -/
def joinSpace : List String → String
  | [] => ""
  | [x] => x
  | x :: rest => x ++ " " ++ joinSpace rest

/-- `AssemblyFunction.check_register_labels` (`assembly/functions.py`), taking
the list of register labels (one per distinct register object of the
function).  The dot test is translated literally from the source:
`with_dot = [n for n in names if '.' in names]` tests membership of the
one-character string `"."` in the list `names` (not a substring test on `n`),
so it fires only when some label is exactly `"."`. -/
def check_register_labels (names : List String) : Except PyErr Unit :=
  let with_dot := names.filter (fun _ => names.contains ".")
  if with_dot ≠ [] then
    .error (.securityError ("Register labels with dots: " ++ joinSpace with_dot))
  else
    let duplicates := get_duplicates names
    if duplicates ≠ [] then
      .error (.securityError ("Register labels are not unique: " ++ joinSpace duplicates))
    else .ok ()

/-! ## Constructor check (`AssemblyFunction.check_constructor`) and the
compiler's function assembly (`compiler/compiler.py`), claim C10. -/

/-- `AssemblyFunction._check_all_fields_initialized_for`: collect the field
names stored into `self_register` and require every declared class field among
them (`fields` is the key order of `assembly_class.fields`). -/
def written_fields_for (self_register : String) (instructions : List Instr) : List String :=
  instructions.filterMap (fun i =>
    match i with
    | .store _ obj fld =>
      if obj = Val.reg self_register then
        match fld with
        | .fldRef name => some name
        | _ => none
      else none
    | _ => none)

/-- The final loop of `_check_all_fields_initialized_for`: the first declared
field that was never written raises. -/
def check_all_fields_initialized_for (fields : List String) (self_register : String)
    (instructions : List Instr) : Except PyErr Unit :=
  match fields.find? (fun field_name =>
      ¬ (written_fields_for self_register instructions).contains field_name) with
  | some field_name =>
    .error (.securityError ("Field " ++ field_name ++ " not initialized in constructor"))
  | none => .ok ()

/-- `AssemblyFunction.check_constructor` (`assembly/functions.py`): first scan
positions `1..` for a `NEW` (raising `AssemblySecurityException`), then read
`self.instructions[0]` with no emptiness guard — on an empty list that access
raises `IndexError`. -/
def check_constructor (fields : List String) (f : AFunction) : Except PyErr Unit :=
  if (f.instructions.drop 1).any Instr.isNew then
    .error (.securityError "NEW instruction must be first instruction in instruction list")
  else
    match f.instructions with
    | [] => .error (.indexError "list index out of range")
    | i0 :: _ =>
      match i0 with
      | .new dst _ => check_all_fields_initialized_for fields dst f.instructions
      | _ => .ok ()

/-- `zapper_function_to_assembly_function` (`compiler/compiler.py`): the body
the user code emitted into the builder is `body`; a constructor first gets
`NEW self Class` appended, and the final `MOV` into the `return` register is
appended unconditionally, so the produced instruction list is never empty.
For a constructor the leading `self` observer is removed from the argument
registers. -/
def zapper_function_to_assembly_function (name : String) (is_constructor : Bool)
    (selfReg className : String) (body : List Instr) (retVal : Val)
    (meReg : String) (argRegs : List String) (is_private : Bool)
    (is_private_for : Option String) : AFunction :=
  { function_name := name,
    instructions := (if is_constructor then [Instr.new selfReg className] else []) ++
      body ++ [Instr.mov "return" retVal],
    me_register := meReg,
    argument_registers := if is_constructor then argRegs.drop 1 else argRegs,
    return_register := "return",
    runtime_type_check_instructions := [],
    is_constructor := is_constructor,
    is_private := is_private,
    is_private_for := is_private_for }

/-! ## Write-instruction type checking
(`assembly/instructions/write_instruction.py` and the variant files),
claim C8.

`infer_and_check_types` only consumes the declared types of the instruction's
operands and destination, so the model works on that typed view.  A declared
type is `none` while still unknown (`Value.assembly_type is None`). -/

/-- An assembly type (`assembly/types.py`): `Uint`, `Long`, `Address`, or a
class qualified name.  `is_assembly_type` holds exactly for these, so a
present `AType` is always a valid assembly type and `none` never is. -/
inductive AType where
  | uint | long | addr | ref (qualifiedName : String)
deriving DecidableEq

/-- The typed view of a `WriteInstruction`: each constructor carries the
declared types of the operands its Python counterpart consults
(`MoveInstruction`, `ConditionalMoveInstruction`, `LoadInstruction`,
`NewInstruction`, `PublicKeyInstruction`, `FreshInstruction`,
`NowInstruction`, `CidInstruction`, `BinaryOperationInstruction`).  A linked
`LOAD` field reference always has a valid type (asserted in
`FieldReference.__init__`), and a linked `NEW` holds its class. -/
inductive WriteShape where
  | movShape (src : Option AType)
  | cmovShape (cond src : Option AType)
  | loadShape (fld : AType)
  | newShape (className : String)
  | pkShape
  | freshShape
  | nowShape
  | cidShape
  | binopShape (op : BinaryOperator) (v1 v2 : Option AType)
deriving DecidableEq

/-- `check_argument_types` of each `WriteInstruction` variant.  Only `CMOV`
(`conditional_move_instruction.py`) and the binary operations
(`binary_operation_instruction.py`) override the no-op default; `CMOV`
compares the declared destination type against the source type directly. -/
def check_argument_types (i : WriteShape) (destType : Option AType) : Except PyErr Unit :=
  match i with
  | .cmovShape cond src =>
    if destType ≠ src then .error (.typeError "Types must match for CMOV")
    else if cond ≠ some .uint then
      .error (.typeError "Condition of CMOV must be a boolean value")
    else .ok ()
  | .binopShape op v1 v2 =>
    if op = .equals then
      if v1 ≠ v2 then .error (.typeError "Types should match for ==") else .ok ()
    else
      if v1 ≠ some .uint ∨ v2 ≠ some .uint then
        .error (.typeError "Binary operations +-*>< only supported for uint")
      else .ok ()
  | _ => .ok ()

/-- `infer_written_type` of each `WriteInstruction` variant. -/
def infer_written_type : WriteShape → Option AType
  | .movShape src => src
  | .cmovShape _ src => src
  | .loadShape fld => some fld
  | .newShape className => some (.ref className)
  | .pkShape => some .addr
  | .freshShape => some .long
  | .nowShape => some .uint
  | .cidShape => some .long
  | .binopShape _ _ _ => some .uint

/-- `WriteInstruction.infer_and_check_types`: run the argument check, compute
the written type (raising `ValueError` when it is not a valid assembly type,
i.e. still `none`), then assign it when `allow_type_change` is set or the
destination type is unknown, and otherwise compare declared and inferred type
with `check_assembly_supertype` (`assembly/types.py`), which demands equality.
Returns the destination's (possibly updated) declared type. -/
def infer_and_check_types (allow_type_change : Bool) (i : WriteShape)
    (destType : Option AType) : Except PyErr (Option AType) :=
  match check_argument_types i destType with
  | .error e => .error e
  | .ok () =>
    match infer_written_type i with
    | none => .error (.valueError "Unexpected type None")
    | some written_type =>
      if allow_type_change ∨ destType = none then .ok (some written_type)
      else
        match destType with
        | none => .ok (some written_type)
        | some dt =>
          if dt ≠ written_type then
            .error (.typeError "Mismatch between expected type and actual type")
          else .ok (some dt)

/-! ## Register allocation (`compiler/register_allocation.py`), claims C5, C6.

The free pool is a Python `set`, and `RegisterAllocation._next_free_register`
takes an element with `set.pop()`, which removes and returns an *arbitrary*
element (the Python language gives no ordering guarantee).  The model is
therefore parametrised by a choice function `pick` constrained by `PickValid`:
it must return a member when the set is nonempty (`set.pop` raises `KeyError`
only on an empty set).  Register locations live on the register objects in
Python; here they are a map from register to `Int`, with the `-1` sentinel of
`Register.__init__`. -/

/-- The state of a `RegisterAllocation` run: `free_registers`, `n_registers`
and the locations of all registers. -/
structure RAState where
  free_registers : Finset Int
  n_registers : Int
  loc : String → Int

/-- A legitimate behaviour of `set.pop`: some member on a nonempty set. -/
def PickValid (pick : Finset Int → Option Int) : Prop :=
  (∀ s x, pick s = some x → x ∈ s) ∧ ∀ s : Finset Int, s.Nonempty → (pick s).isSome

/-- One valid `set.pop` behaviour: always the smallest element. -/
def pickMin (s : Finset Int) : Option Int :=
  if h : s.Nonempty then some (s.min' h) else none

/-- Another valid `set.pop` behaviour: always the largest element. -/
def pickMax (s : Finset Int) : Option Int :=
  if h : s.Nonempty then some (s.max' h) else none

/-- `RegisterAllocation._next_free_register`: pop from the free pool, or take
the next counter value when the pool is empty. -/
def next_free_register (pick : Finset Int → Option Int) (st : RAState) : Int × RAState :=
  match pick st.free_registers with
  | some x => (x, { st with free_registers := st.free_registers.erase x })
  | none => (st.n_registers, { st with n_registers := st.n_registers + 1 })

/-- Set one register's location. -/
def setLoc (st : RAState) (r : String) (v : Int) : RAState :=
  { st with loc := fun x => if x = r then v else st.loc x }

/-- `register.location = self._next_free_register()`: store the freshly
popped slot on the register, unconditionally. -/
def allocTo (pick : Finset Int → Option Int) (acc : RAState) (r : String) : RAState :=
  setLoc (next_free_register pick acc).2 r (next_free_register pick acc).1

/-- One register of the assignment half of the main loop: a register still at
location `-1` receives `_next_free_register()`. -/
def assignRegister (pick : Finset Int → Option Int) (acc : RAState) (r : String) : RAState :=
  if acc.loc r = -1 then allocTo pick acc r else acc

/-- One register of the freeing half of the main loop: when the register's
last use is this instruction (`last_used[register] is instruction`, i.e. it
occurs in no later instruction) its location is returned to the free pool. -/
def freeIfDead (rest : List Instr) (acc : RAState) (r : String) : RAState :=
  if rest.all (fun later => ¬ later.get_registers.contains r) then
    { acc with free_registers := insert (acc.loc r) acc.free_registers }
  else acc

/-- The per-instruction body of `RegisterAllocation.run`'s main loop, first
half: every register of the instruction still at location `-1` receives
`_next_free_register()`. -/
def raAssign (pick : Finset Int → Option Int) (st : RAState) (instr : Instr) : RAState :=
  instr.get_registers.foldl (assignRegister pick) st

/-- Second half of the loop body: the location of every register whose last
use is this instruction is returned to the free pool. -/
def raFree (st : RAState) (instr : Instr) (rest : List Instr) : RAState :=
  instr.get_registers.foldl (freeIfDead rest) st

/-- One iteration of `RegisterAllocation.run`'s main loop over the instruction
at the head, with `rest` the instructions after it. -/
def raStep (pick : Finset Int → Option Int) (st : RAState) (instr : Instr)
    (rest : List Instr) : RAState :=
  raFree (raAssign pick st instr) instr rest

/-- The main loop of `RegisterAllocation.run`. -/
def raLoop (pick : Finset Int → Option Int) (st : RAState) : List Instr → RAState
  | [] => st
  | instr :: rest => raLoop pick (raStep pick st instr rest) rest

/-- `RegisterAllocation.run` (`compiler/register_allocation.py`): allocate
`me` first, then the argument registers in order, then walk
`get_all_instructions()`.  The pool starts empty and the counter at `0`; all
register locations start at the `-1` sentinel. -/
def RegisterAllocation.run (pick : Finset Int → Option Int) (f : AFunction) : RAState :=
  raLoop pick
    (f.argument_registers.foldl (allocTo pick)
      (allocTo pick { free_registers := ∅, n_registers := 0, loc := fun _ => -1 }
        f.me_register))
    f.get_all_instructions

/-! ## Inlining (`assembly/assembly_storage.py`, `assembly/functions.py`),
claims C3, C4. -/

/-- The class map of `AssemblyStorage`: `assembly_classes` as an association
list from qualified class name to the class's `functions` association list. -/
structure Storage where
  classes : List (String × List (String × AFunction))
deriving DecidableEq

/-- `assembly_storage.assembly_classes[cls].get_function(fn)`. -/
def lookupFunction (s : Storage) (cls fn : String) : Option AFunction :=
  match List.lookup cls s.classes with
  | none => none
  | some fns => List.lookup fn fns

/-- `Register.clone(postfix)` lifted to operands: only `Register` attributes
are renamed by `Instruction.get_inlined_equivalent` (`instructions/instruction.py`). -/
def cloneVal (pfx : String) : Val → Val
  | .reg label => .reg (label ++ "#" ++ pfx)
  | v => v

/-- `Instruction.get_inlined_equivalent`: clone every `Register`-valued
attribute of the instruction.  The `call_arguments` list of a
`CallInstruction` is a plain list attribute, not a `Register`, so it is copied
unrenamed (only the destination, held in `self.register`, is a `Register`). -/
def cloneInstr (pfx : String) : Instr → Instr
  | .noop => .noop
  | .mov dst src => .mov (dst ++ "#" ++ pfx) (cloneVal pfx src)
  | .cmov dst cond src => .cmov (dst ++ "#" ++ pfx) (cloneVal pfx cond) (cloneVal pfx src)
  | .req cond => .req (cloneVal pfx cond)
  | .load dst obj fld => .load (dst ++ "#" ++ pfx) (cloneVal pfx obj) (cloneVal pfx fld)
  | .store src obj fld => .store (src ++ "#" ++ pfx) (cloneVal pfx obj) (cloneVal pfx fld)
  | .kill obj => .kill (cloneVal pfx obj)
  | .pk dst obj => .pk (dst ++ "#" ++ pfx) (cloneVal pfx obj)
  | .new dst className => .new (dst ++ "#" ++ pfx) className
  | .cid dst obj => .cid (dst ++ "#" ++ pfx) (cloneVal pfx obj)
  | .fresh dst => .fresh (dst ++ "#" ++ pfx)
  | .now dst => .now (dst ++ "#" ++ pfx)
  | .binop op dst v1 v2 => .binop op (dst ++ "#" ++ pfx) (cloneVal pfx v1) (cloneVal pfx v2)
  | .call dst cls fn sis args => .call (dst ++ "#" ++ pfx) cls fn sis args

/-- `AssemblyFunction.clone_for_inlining(postfix)`: a fresh function whose
`me`, argument and return registers and whose instruction registers all carry
the `label + '#' + postfix` names (the register mapping maps every original
register to its postfixed clone, so the pure renaming is the mapping's
behaviour).  The constructor starts a fresh empty runtime-check list. -/
def clone_for_inlining (pfx : String) (f : AFunction) : AFunction :=
  { function_name := f.function_name,
    instructions := f.instructions.map (cloneInstr pfx),
    me_register := f.me_register ++ "#" ++ pfx,
    argument_registers := f.argument_registers.map (fun r => r ++ "#" ++ pfx),
    return_register := f.return_register ++ "#" ++ pfx,
    runtime_type_check_instructions := [],
    is_constructor := f.is_constructor,
    is_private := f.is_private,
    is_private_for := f.is_private_for }

/-- The `me` handling of `AssemblyFunction.inline`: a `PK` from the caller's
first argument register (`self.argument_registers[0]`, an unguarded index)
when `sender_is_self`, else a `MOV` from the caller's `me` register. -/
def meBinding (f : AFunction) (callee : AFunction) (sis : Bool) :
    Except PyErr (List Instr) :=
  if sis then
    match f.argument_registers with
    | [] => .error (.indexError "list index out of range")
    | a0 :: _ => .ok [Instr.pk callee.me_register (Val.reg a0)]
  else .ok [Instr.mov callee.me_register (Val.reg f.me_register)]

/-- The replacement a `CALL` unfolds to, given the already-cloned callee: the
`me` binding, one `MOV` per parameter/argument pair (`zip` truncates, as in
Python), the callee's body, and a final `MOV` of the callee's return register
into the call destination. -/
def inlineCallSegment (f : AFunction) (callee : AFunction) (dst : String)
    (sis : Bool) (args : List Val) : Except PyErr (List Instr) :=
  match meBinding f callee sis with
  | .error e => .error e
  | .ok mb =>
    .ok (mb ++ List.zipWith (fun p a => Instr.mov p a) callee.argument_registers args ++
      callee.instructions ++ [Instr.mov dst (Val.reg callee.return_register)])

/-- The loop body of `AssemblyFunction.inline` for the instruction at index
`i`: a `CALL` is replaced by its inline segment — the callee is re-fetched
from storage so that an already-inlined body is used, and cloned with postfix
`inlined#i` — while every other instruction is copied through. -/
def inlineOneInstr (storage : Storage) (f : AFunction) (i : Nat) (instr : Instr) :
    Except PyErr (List Instr) :=
  match instr with
  | .call dst cls fn sis args =>
    match lookupFunction storage cls fn with
    | none => .error (.keyError (cls ++ "." ++ fn))
    | some calleeCurrent =>
      inlineCallSegment f (clone_for_inlining ("inlined#" ++ toString i) calleeCurrent)
        dst sis args
  | other => .ok [other]

/-- The enumerated loop of `AssemblyFunction.inline`, concatenating the
per-instruction segments. -/
def inlineInstrs (storage : Storage) (f : AFunction) :
    Nat → List Instr → Except PyErr (List Instr)
  | _, [] => .ok []
  | i, instr :: rest =>
    match inlineOneInstr storage f i instr with
    | .error e => .error e
    | .ok seg =>
      match inlineInstrs storage f (i + 1) rest with
      | .error e => .error e
      | .ok restInlined => .ok (seg ++ restInlined)

/-- `AssemblyFunction.inline`: rebuild the function over the inlined
instruction list (the constructor starts a fresh empty runtime-check list). -/
def AFunction.inline (storage : Storage) (f : AFunction) : Except PyErr AFunction :=
  match inlineInstrs storage f 0 f.instructions with
  | .error e => .error e
  | .ok instrs => .ok { f with instructions := instrs,
                               runtime_type_check_instructions := [] }

/-- The dictionary assignment `self.functions[function_name] = ...` of
`AssemblyClass.inline_function`, as a storage update. -/
def updateStorage (storage : Storage) (cls fn : String) (f' : AFunction) : Storage :=
  ⟨storage.classes.map (fun c =>
    if c.1 = cls then
      (c.1, c.2.map (fun fe => if fe.1 = fn then (fe.1, f') else fe))
    else c)⟩

/-- `AssemblyClass.inline_function` reached through
`self.assembly_classes[class_name].inline_function(self, function_name)`:
inline the named function against the whole storage and store the result back
under its name. -/
def inlineFunctionInStorage (storage : Storage) (cls fn : String) :
    Except PyErr Storage :=
  match lookupFunction storage cls fn with
  | none => .error (.keyError (cls ++ "." ++ fn))
  | some f =>
    match AFunction.inline storage f with
    | .error e => .error e
    | .ok f' => .ok (updateStorage storage cls fn f')

/-- One step of `AssemblyFunction.get_called_function_names`: record the
target of a `CALL` unless already seen. -/
def addCalled (acc : List (String × String)) (i : Instr) : List (String × String) :=
  match i with
  | .call _ cls fn _ _ => if acc.contains (cls, fn) then acc else acc ++ [(cls, fn)]
  | _ => acc

/-- `AssemblyFunction.get_called_function_names`: the set of
`(class, function)` pairs called by the body, as a deduplicated list. -/
def get_called_function_names (instrs : List Instr) : List (String × String) :=
  instrs.foldl addCalled []

/-- The call targets of a body, with multiplicity (used to state properties of
the graph edges, which are the deduplicated in-set subset of these). -/
def callTargets (instrs : List Instr) : List (String × String) :=
  instrs.filterMap (fun i =>
    match i with
    | .call _ cls fn _ _ => some (cls, fn)
    | _ => none)

/-- The inlining work list: `remaining_callgraph`, an association list from
`(class, function)` to its not-yet-inlined in-set callees. -/
abbrev CallGraph := List ((String × String) × List (String × String))

/-- The `remaining_callgraph` built at the top of
`AssemblyStorage.inline_new_classes`: one node per function of each class to
check, with the callees restricted to the classes being checked. -/
def buildCallGraph (storage : Storage) (classes_to_check : List String) : CallGraph :=
  classes_to_check.flatMap (fun cname =>
    match List.lookup cname storage.classes with
    | none => []
    | some fns => fns.map (fun fe =>
        ((cname, fe.1),
         (get_called_function_names fe.2.instructions).filter
           (fun t => classes_to_check.contains t.1))))

/-- The node deletion of one loop iteration: `del remaining_callgraph[key]`
plus the guarded `remove` of the key from every other callee list. -/
def shrinkGraph (g : CallGraph) (k : String × String) : CallGraph :=
  (g.filter (fun kv => kv.1 ≠ k)).map (fun kv => (kv.1, kv.2.erase k))

/-- The keys (nodes) of the work-list graph. -/
def graphKeys (g : CallGraph) : List (String × String) :=
  g.map Prod.fst

/-- The `while` loop of `inline_new_classes`: pick the first node with no
remaining callees, inline it, delete it from the graph and from every callee
list, and repeat; when the graph is nonempty but no such node exists the
source raises `AssertionError("detected cycle in call graph, cannot inline")`.
Each iteration removes at least one node, so the initial graph size is enough
fuel; the fuel-exhaustion branch (unreachable from `inline_new_classes`)
reports the same cycle error. -/
def inlineLoop : Nat → Storage → CallGraph → Except PyErr Storage
  | _, storage, [] => .ok storage
  | 0, _, _ :: _ =>
    .error (.assertionError "detected cycle in call graph, cannot inline")
  | fuel + 1, storage, g0 :: g1 =>
    match (g0 :: g1).find? (fun kv => kv.2.isEmpty) with
    | none => .error (.assertionError "detected cycle in call graph, cannot inline")
    | some (k, _) =>
      match inlineFunctionInStorage storage k.1 k.2 with
      | .error e => .error e
      | .ok storage' => inlineLoop fuel storage' (shrinkGraph (g0 :: g1) k)

/-- `AssemblyStorage.inline_new_classes` (`assembly/assembly_storage.py`). -/
def inline_new_classes (storage : Storage) (classes_to_check : List String) :
    Except PyErr Storage :=
  let graph := buildCallGraph storage classes_to_check
  inlineLoop graph.length storage graph

/-- A function whose body has no `CALL` instruction. -/
def callFreeB (f : AFunction) : Bool :=
  f.instructions.all (fun i => ¬ i.isCall)

/-- Does the body contain a `sender_is_self` call? -/
def hasSenderSelfCall (f : AFunction) : Bool :=
  f.instructions.any (fun i =>
    match i with
    | .call _ _ _ sis _ => sis
    | _ => false)

/-- A cycle in the work-list graph: a nonempty set of nodes each of which has
a remaining callee inside the set. -/
def CycleIn (g : CallGraph) : Prop :=
  ∃ S : List (String × String), S ≠ [] ∧
    ∀ a ∈ S, ∃ es, (a, es) ∈ g ∧ ∃ t, t ∈ es ∧ t ∈ S

/-! ## Concrete instances used to evaluate the definitions -/

/-- A trivial back-end: the Merkle tree state is `Unit` with constant root
`""`, the serialized-function payload is `Unit`, and no verifier is configured
(`dbg_no_proof=True`). -/
def unitBackend : Backend Unit Unit :=
  { insert := fun m _ _ => m, get_root := fun _ => "", verifier := none }

/-- A freshly constructed ledger state (`Ledger.__init__`): no registered
functions, empty serial and seed sets, record index `0`, empty history and the
initial test time `5555`. -/
def emptyLedgerState : LedgerState Unit Unit :=
  { serialized_functions := [], published_serial_numbers := ∅,
    published_unique_seeds := ∅, merkle_tree := (), next_record_idx := 0,
    accepted_transactions := [], current_time := 5555 }

/-- A transaction that passes every guard before the function lookup but names
a function the ledger does not know. -/
def unknownFnTx : Transaction :=
  { class_name := "Foo", function_name := "bar", merkle_tree_root := "",
    consumed_serials := [], new_records := [], proof := none,
    unique_seed := "seed0", current_time := 5555 }

/-- A well-formed transaction for the function registered as `Foo.bar`. -/
def wTx : Transaction :=
  { class_name := "Foo", function_name := "bar", merkle_tree_root := "",
    consumed_serials := ["s1"], new_records := [], proof := none,
    unique_seed := "u1", current_time := 5555 }

/-- Register `Foo.bar`, then submit `wTx`. -/
def c2ops : List (LedgerOp Unit) :=
  [.registerOp [(("Foo", "bar"), ())], .txOp wTx]

/-- A function whose register lifetimes put two slots in the free pool at
once: after `MOV b a` both slot 0 (freed by `m` dying, reused and freed by
`b`) and slot 1 (freed by `a` dying) are free when `c` asks for a slot. -/
def fC5 : AFunction :=
  { function_name := "g",
    instructions := [.mov "a" (.reg "m"), .mov "b" (.reg "a"), .mov "c" (.reg "c")],
    me_register := "m", argument_registers := [], return_register := "c",
    runtime_type_check_instructions := [], is_constructor := false,
    is_private := false, is_private_for := none }

/-- A function with `me` and two argument registers. -/
def fC6 : AFunction :=
  { function_name := "w",
    instructions := [.mov "r" (.reg "x")],
    me_register := "m", argument_registers := ["x", "y"], return_register := "r",
    runtime_type_check_instructions := [], is_constructor := false,
    is_private := false, is_private_for := none }

/-- `A.f`, whose body calls `B.g`. -/
def fnAf : AFunction :=
  { function_name := "f", instructions := [.call "r1" "B" "g" false []],
    me_register := "meA", argument_registers := [], return_register := "retA",
    runtime_type_check_instructions := [], is_constructor := false,
    is_private := false, is_private_for := none }

/-- `B.g`, whose body calls `A.f` back. -/
def fnBg : AFunction :=
  { function_name := "g", instructions := [.call "r2" "A" "f" false []],
    me_register := "meB", argument_registers := [], return_register := "retB",
    runtime_type_check_instructions := [], is_constructor := false,
    is_private := false, is_private_for := none }

/-- Two classes whose call graph is the cycle `A.f → B.g → A.f`. -/
def cycleStorage : Storage :=
  ⟨[("A", [("f", fnAf)]), ("B", [("g", fnBg)])]⟩

/-- `D.k`, a call-free leaf function. -/
def fnDk : AFunction :=
  { function_name := "k", instructions := [.mov "x" (.const 1)],
    me_register := "meD", argument_registers := [], return_register := "x",
    runtime_type_check_instructions := [], is_constructor := false,
    is_private := false, is_private_for := none }

/-- `C.h`, whose body calls `D.k`. -/
def fnCh : AFunction :=
  { function_name := "h", instructions := [.call "r" "D" "k" false []],
    me_register := "meC", argument_registers := [], return_register := "r",
    runtime_type_check_instructions := [], is_constructor := false,
    is_private := false, is_private_for := none }

/-- Two classes with the acyclic call graph `C.h → D.k`. -/
def chainStorage : Storage :=
  ⟨[("C", [("h", fnCh)]), ("D", [("k", fnDk)])]⟩

/-- The expected inlining of `C.h`: the `me` binding, the cloned body of
`D.k`, and the return move. -/
def fnChInlined : AFunction :=
  { function_name := "h",
    instructions := [.mov "meD#inlined#0" (.reg "meC"),
                     .mov "x#inlined#0" (.const 1),
                     .mov "r" (.reg "x#inlined#0")],
    me_register := "meC", argument_registers := [], return_register := "r",
    runtime_type_check_instructions := [], is_constructor := false,
    is_private := false, is_private_for := none }

/-- `chainStorage` after `inline_new_classes`. -/
def chainInlined : Storage :=
  ⟨[("C", [("h", fnChInlined)]), ("D", [("k", fnDk)])]⟩

/-! # Theorems -/

/-! ## Ledger lemmas -/

lemma collect_spec : ∀ (l : List String) (acc out : Finset String),
    collectTransactionSerials acc l = some out →
    l.Nodup ∧ (∀ x ∈ l, x ∉ acc) ∧ out = acc ∪ l.toFinset := by
  intro l
  induction l with
  | nil =>
    intro acc out h
    simp only [collectTransactionSerials, Option.some.injEq] at h
    subst h
    simp
  | cons s rest ih =>
    intro acc out h
    simp only [collectTransactionSerials, add_to_set_check_unique] at h
    by_cases hm : s ∈ acc
    · simp [hm] at h
    · simp only [hm, if_false] at h
      obtain ⟨hnd, hni, hout⟩ := ih (insert s acc) out h
      refine ⟨?_, ?_, ?_⟩
      · refine List.nodup_cons.mpr ⟨?_, hnd⟩
        intro hs
        exact hni s hs (Finset.mem_insert_self s acc)
      · intro x hx
        rcases List.mem_cons.mp hx with rfl | hx'
        · exact hm
        · intro hxa
          exact hni x hx' (Finset.mem_insert_of_mem hxa)
      · rw [hout]
        simp [Finset.insert_union, Finset.union_insert]

lemma vx_ok_spec {M F : Type} (B : Backend M F) (s : LedgerState M F) (t : Transaction)
    (s' : LedgerState M F)
    (h : verify_and_execute_transaction B s t = .ok s') :
    t.consumed_serials.Nodup ∧
    (∀ x ∈ t.consumed_serials, x ∉ s.published_serial_numbers) ∧
    t.unique_seed ∉ s.published_unique_seeds ∧
    t.merkle_tree_root = B.get_root s.merkle_tree ∧
    s'.published_serial_numbers =
      s.published_serial_numbers ∪ t.consumed_serials.toFinset ∧
    s'.published_unique_seeds = insert t.unique_seed s.published_unique_seeds := by
  unfold verify_and_execute_transaction at h
  split at h
  · exact Except.noConfusion h
  rename_i ts hc
  obtain ⟨hnd, -, hts⟩ := collect_spec _ _ _ hc
  rw [Finset.empty_union] at hts
  split at h
  · exact Except.noConfusion h
  rename_i h1
  split at h
  · exact Except.noConfusion h
  rename_i h2
  split at h
  · exact Except.noConfusion h
  rename_i h3
  split at h
  · exact Except.noConfusion h
  rename_i h4
  split at h
  · exact Except.noConfusion h
  rename_i sf hl
  split at h
  · exact Except.noConfusion h
  split at h
  rename_i m' idx' hins
  injection h with h'
  have hdisj : ∀ x ∈ t.consumed_serials, x ∉ s.published_serial_numbers := by
    intro x hx hpub
    have hcard : (ts ∩ s.published_serial_numbers).card = 0 := by omega
    have hempty : ts ∩ s.published_serial_numbers = ∅ := Finset.card_eq_zero.mp hcard
    have hxts : x ∈ ts := by
      rw [hts]; exact List.mem_toFinset.mpr hx
    have hmem : x ∈ ts ∩ s.published_serial_numbers := Finset.mem_inter.mpr ⟨hxts, hpub⟩
    rw [hempty] at hmem
    exact Finset.not_mem_empty x hmem
  refine ⟨hnd, hdisj, h2, not_not.mp h3, ?_, ?_⟩
  · rw [← h']
    simp [hts]
  · rw [← h']

lemma runProofCheck_error {M F : Type} (B : Backend M F) (t : Transaction) (sf : F)
    (time : Int) (e : PyErr) (h : runProofCheck B t sf time = .error e) :
    ∃ msg, e = PyErr.txRejected msg := by
  unfold runProofCheck at h
  split at h
  · exact Except.noConfusion h
  · split at h
    · injection h with h'
      exact ⟨_, h'.symm⟩
    · injection h with h'
      exact ⟨_, h'.symm⟩
    · exact Except.noConfusion h

lemma vx_error_spec {M F : Type} (B : Backend M F) (s : LedgerState M F) (t : Transaction)
    (e : PyErr) (h : verify_and_execute_transaction B s t = .error e) :
    (∃ msg, e = PyErr.txRejected msg) ∨
    (e = PyErr.valueError ("unknown function " ++ t.class_name ++ "." ++
        t.function_name ++ " or function not public") ∧
      lookupSerialized s.serialized_functions t.class_name t.function_name = none) := by
  unfold verify_and_execute_transaction at h
  split at h
  · injection h with h'
    exact Or.inl ⟨_, h'.symm⟩
  rename_i ts hc
  split at h
  · injection h with h'
    exact Or.inl ⟨_, h'.symm⟩
  split at h
  · injection h with h'
    exact Or.inl ⟨_, h'.symm⟩
  split at h
  · injection h with h'
    exact Or.inl ⟨_, h'.symm⟩
  split at h
  · injection h with h'
    exact Or.inl ⟨_, h'.symm⟩
  split at h
  · rename_i hl
    injection h with h'
    exact Or.inr ⟨h'.symm, hl⟩
  · rename_i sf hl
    split at h
    · rename_i e' hp
      injection h with h'
      subst h'
      exact Or.inl (runProofCheck_error _ _ _ _ _ hp)
    · split at h
      exact Except.noConfusion h

/-- Claim C1 (corrected): every rejection of
`Ledger.verify_and_execute_transaction` leaves the ledger state unchanged (the
model returns only the error, mutation happens solely in the final accepted
branch) and raises `TxRejectedException` with a reason — except an unknown or
non-public `(class, function)` pair, which goes through
`Ledger.get_serialized_function` and therefore raises `ValueError`. -/
theorem ledger_single_rejection_kind {M F : Type} (B : Backend M F)
    (s : LedgerState M F) (t : Transaction) :
    (∃ s', verify_and_execute_transaction B s t = Except.ok s') ∨
    (∃ msg, verify_and_execute_transaction B s t = Except.error (PyErr.txRejected msg)) ∨
    (verify_and_execute_transaction B s t =
        Except.error (PyErr.valueError ("unknown function " ++ t.class_name ++ "." ++
          t.function_name ++ " or function not public")) ∧
      lookupSerialized s.serialized_functions t.class_name t.function_name = none) := by
  cases hv : verify_and_execute_transaction B s t with
  | ok s' => exact Or.inl ⟨s', rfl⟩
  | error e =>
    rcases vx_error_spec B s t e hv with ⟨msg, rfl⟩ | ⟨he, hl⟩
    · exact Or.inr (Or.inl ⟨msg, rfl⟩)
    · refine Or.inr (Or.inr ⟨?_, hl⟩)
      rw [he]

/-- Counterexample to claim C1 as stated: a transaction naming an unregistered
function passes every earlier guard and is rejected with `ValueError`, not
with the single `TxRejectedException` kind the claim asserts. -/
theorem ledger_unknown_function_value_error :
    verify_and_execute_transaction unitBackend emptyLedgerState unknownFnTx =
      Except.error (PyErr.valueError "unknown function Foo.bar or function not public") ∧
    resultIsTxRejected
      (verify_and_execute_transaction unitBackend emptyLedgerState unknownFnTx) = false := by
  constructor
  · rfl
  · rfl

lemma vx_ok_mono {M F : Type} (B : Backend M F) (s : LedgerState M F) (t : Transaction)
    (s' : LedgerState M F) (h : verify_and_execute_transaction B s t = .ok s') :
    s.published_serial_numbers ⊆ s'.published_serial_numbers ∧
    s.published_unique_seeds ⊆ s'.published_unique_seeds := by
  obtain ⟨-, -, -, -, hp, hs⟩ := vx_ok_spec B s t s' h
  rw [hp, hs]
  exact ⟨Finset.subset_union_left, Finset.subset_insert _ _⟩

lemma applyOp_mono {M F : Type} (B : Backend M F) (s : LedgerState M F) (op : LedgerOp F) :
    s.published_serial_numbers ⊆ (applyOp B s op).published_serial_numbers ∧
    s.published_unique_seeds ⊆ (applyOp B s op).published_unique_seeds := by
  cases op with
  | txOp t =>
    cases hv : verify_and_execute_transaction B s t with
    | ok s' =>
      have happ : applyOp B s (.txOp t) = s' := by simp [applyOp, hv]
      rw [happ]
      exact vx_ok_mono B s t s' hv
    | error e =>
      have happ : applyOp B s (.txOp t) = s := by simp [applyOp, hv]
      rw [happ]
      exact ⟨subset_rfl, subset_rfl⟩
  | registerOp es => exact ⟨subset_rfl, subset_rfl⟩
  | incTimeOp n => exact ⟨subset_rfl, subset_rfl⟩

lemma runOps_mono {M F : Type} (B : Backend M F) :
    ∀ (ops : List (LedgerOp F)) (s : LedgerState M F),
      s.published_serial_numbers ⊆ (runOps B s ops).published_serial_numbers ∧
      s.published_unique_seeds ⊆ (runOps B s ops).published_unique_seeds := by
  intro ops
  induction ops with
  | nil => intro s; exact ⟨subset_rfl, subset_rfl⟩
  | cons op rest ih =>
    intro s
    have h1 := applyOp_mono B s op
    have h2 := ih (applyOp B s op)
    exact ⟨h1.1.trans h2.1, h1.2.trans h2.2⟩

lemma runOps_append {M F : Type} (B : Backend M F) :
    ∀ (l1 l2 : List (LedgerOp F)) (s : LedgerState M F),
      runOps B s (l1 ++ l2) = runOps B (runOps B s l1) l2 := by
  intro l1
  induction l1 with
  | nil => intro l2 s; rfl
  | cons op rest ih => intro l2 s; exact ih l2 (applyOp B s op)

/-- Claim C9 (confirmed): no ledger operation — a transaction call whether it
accepts or rejects, class registration, or the test time bump — ever removes a
published serial number or a published unique seed. -/
theorem ledger_published_sets_monotone {M F : Type} (B : Backend M F)
    (s : LedgerState M F) (op : LedgerOp F) :
    s.published_serial_numbers ⊆ (applyOp B s op).published_serial_numbers ∧
    s.published_unique_seeds ⊆ (applyOp B s op).published_unique_seeds :=
  applyOp_mono B s op

/-- Claim C2 (confirmed): along any operation sequence, an accepted
transaction has pairwise-distinct serials, its Merkle root equals the root of
the ledger state just before it executes, and its serials and seed are
disjoint from (resp. different from) those of every previously accepted
transaction. -/
theorem ledger_accepted_tx_invariants {M F : Type} (B : Backend M F)
    (s0 : LedgerState M F) (ops : List (LedgerOp F)) (i : Nat) (hi : i < ops.length)
    (t : Transaction) (_hop : ops.get ⟨i, hi⟩ = .txOp t)
    (hacc : ∃ s', verify_and_execute_transaction B (runOps B s0 (ops.take i)) t = .ok s') :
    t.consumed_serials.Nodup ∧
    t.merkle_tree_root = B.get_root (runOps B s0 (ops.take i)).merkle_tree ∧
    ∀ j, ∀ hj : j < i, ∀ t' : Transaction,
      ops.get ⟨j, hj.trans hi⟩ = .txOp t' →
      (∃ s'', verify_and_execute_transaction B (runOps B s0 (ops.take j)) t' = .ok s'') →
      (∀ x ∈ t'.consumed_serials, x ∉ t.consumed_serials) ∧
      t'.unique_seed ≠ t.unique_seed := by
  obtain ⟨s', hacc⟩ := hacc
  obtain ⟨hnd, hdisj, hseed, hroot, -, -⟩ := vx_ok_spec _ _ _ _ hacc
  refine ⟨hnd, hroot, ?_⟩
  rintro j hj t' hop' ⟨s'', hacc'⟩
  have hj' : j < ops.length := hj.trans hi
  have hgetj : ops[j]? = some (LedgerOp.txOp t') := by
    rw [List.getElem?_eq_getElem hj']
    rw [← List.get_eq_getElem ops ⟨j, hj'⟩, hop']
  have hsplit : ops.take i =
      ops.take j ++ (LedgerOp.txOp t' :: (ops.drop (j + 1)).take (i - (j + 1))) := by
    conv_lhs => rw [show i = (j + 1) + (i - (j + 1)) by omega]
    rw [List.take_add, List.take_succ, hgetj]
    simp
  have hstate : runOps B s0 (ops.take i) =
      runOps B (applyOp B (runOps B s0 (ops.take j)) (.txOp t'))
        ((ops.drop (j + 1)).take (i - (j + 1))) := by
    rw [hsplit, runOps_append]
    rfl
  have happ : applyOp B (runOps B s0 (ops.take j)) (.txOp t') = s'' := by
    simp [applyOp, hacc']
  obtain ⟨-, -, -, -, hp'', hs''⟩ := vx_ok_spec _ _ _ _ hacc'
  have hmono := runOps_mono B ((ops.drop (j + 1)).take (i - (j + 1))) s''
  constructor
  · intro x hx hxt
    have hx'' : x ∈ s''.published_serial_numbers := by
      rw [hp'']
      exact Finset.mem_union_right _ (List.mem_toFinset.mpr hx)
    have hxi : x ∈ (runOps B s0 (ops.take i)).published_serial_numbers := by
      rw [hstate, happ]
      exact hmono.1 hx''
    exact hdisj x hxt hxi
  · intro heq
    have hu'' : t'.unique_seed ∈ s''.published_unique_seeds := by
      rw [hs'']
      exact Finset.mem_insert_self _ _
    have hui : t'.unique_seed ∈ (runOps B s0 (ops.take i)).published_unique_seeds := by
      rw [hstate, happ]
      exact hmono.2 hu''
    rw [heq] at hui
    exact hseed hui

/-- Witness for claim C2: the concrete transaction `wTx`, accepted right after
its function is registered, satisfies the stated invariants. -/
theorem ledger_accepted_tx_invariants_witness :
    wTx.consumed_serials.Nodup ∧
    wTx.merkle_tree_root =
      unitBackend.get_root (runOps unitBackend emptyLedgerState (c2ops.take 1)).merkle_tree := by
  have h := ledger_accepted_tx_invariants unitBackend emptyLedgerState c2ops 1 (by decide)
    wTx (by rfl) ⟨_, by rfl⟩
  exact ⟨h.1, h.2.1⟩

lemma check_all_fields_no_index (fields : List String) (selfR : String)
    (instrs : List Instr) (msg : String) :
    check_all_fields_initialized_for fields selfR instrs ≠
      Except.error (PyErr.indexError msg) := by
  intro h
  unfold check_all_fields_initialized_for at h
  split at h
  · injection h with h'
    exact PyErr.noConfusion h'
  · exact Except.noConfusion h

/-- Claim C7 (code bug): the docstring of `check_register_labels` promises
that labels containing dots are rejected, but the translated comprehension
tests membership of the string `"."` in the label list, so the label `"a.b"`
passes the check even though it contains a dot; a label that is exactly `"."`
and duplicate labels are still rejected. -/
theorem check_register_labels_dot_bug :
    check_register_labels ["a.b"] = Except.ok () ∧
    ('.' ∈ "a.b".data) ∧
    check_register_labels ["."] =
      Except.error (PyErr.securityError "Register labels with dots: .") ∧
    check_register_labels ["x", "x"] =
      Except.error (PyErr.securityError "Register labels are not unique: x") := by
  refine ⟨by rfl, by decide, by rfl, by rfl⟩

/-- Claim C10 (confirmed): `check_constructor` reads `instructions[0]` with no
guard, raising `IndexError` exactly on an empty instruction list, and every
function produced by the compiler is non-empty because the final `MOV` into
the return register is appended unconditionally. -/
theorem check_constructor_total_on_compiled :
    (∀ (fields : List String) (f : AFunction),
      check_constructor fields f =
          Except.error (PyErr.indexError "list index out of range") ↔
        f.instructions = []) ∧
    (∀ (name : String) (is_ctor : Bool) (selfReg className : String)
      (body : List Instr) (retVal : Val) (meReg : String) (argRegs : List String)
      (is_priv : Bool) (ipf : Option String),
      0 < (zapper_function_to_assembly_function name is_ctor selfReg className body
        retVal meReg argRegs is_priv ipf).instructions.length) := by
  constructor
  · intro fields f
    constructor
    · intro h
      unfold check_constructor at h
      split at h
      · injection h with h'
        exact PyErr.noConfusion h'
      · split at h
        · rename_i hnil
          exact hnil
        · rename_i i0 rest hcons
          split at h
          · exact absurd h (check_all_fields_no_index _ _ _ _)
          · exact Except.noConfusion h
    · intro h
      unfold check_constructor
      rw [h]
      rfl
  · intro name is_ctor selfReg className body retVal meReg argRegs is_priv ipf
    simp only [zapper_function_to_assembly_function, List.append_assoc, List.length_append]
    simp

/-- Claim C8 (corrected): for every `WriteInstruction` variant,
`infer_and_check_types` assigns the inferred type to an unknown destination,
accepts a declared destination equal to the inferred type, raises the
mismatch `AssemblyTypeError` exactly on an actual mismatch — and the only
other failures are a failing argument check (notably `CMOV`, whose argument
check reads the declared destination type) or an unavailable inferred type. -/
theorem write_instruction_type_check (i : WriteShape) (dt : Option AType) :
    (dt = none → check_argument_types i dt = .ok () →
      ∀ w, infer_written_type i = some w →
        infer_and_check_types false i dt = .ok (some w)) ∧
    (∀ a, dt = some a → check_argument_types i dt = .ok () →
      infer_written_type i = some a →
      infer_and_check_types false i dt = .ok (some a)) ∧
    (∀ a w, dt = some a → check_argument_types i dt = .ok () →
      infer_written_type i = some w → a ≠ w →
      infer_and_check_types false i dt =
        .error (.typeError "Mismatch between expected type and actual type")) ∧
    (∀ e, infer_and_check_types false i dt = .error e →
      check_argument_types i dt = .error e ∨
      infer_written_type i = none ∨
      ∃ a w, dt = some a ∧ infer_written_type i = some w ∧ a ≠ w) := by
  refine ⟨?_, ?_, ?_, ?_⟩
  · rintro rfl hca w hw
    unfold infer_and_check_types
    rw [hca, hw]
    simp
  · rintro a rfl hca hw
    unfold infer_and_check_types
    rw [hca, hw]
    simp
  · rintro a w rfl hca hw hne
    unfold infer_and_check_types
    rw [hca, hw]
    simp [hne]
  · intro e h
    cases hca : check_argument_types i dt with
    | error e' =>
      have hx : infer_and_check_types false i dt = .error e' := by
        unfold infer_and_check_types
        rw [hca]
      rw [hx] at h
      injection h with h'
      subst h'
      exact Or.inl rfl
    | ok u =>
      cases u
      cases hw : infer_written_type i with
      | none =>
        exact Or.inr (Or.inl rfl)
      | some w =>
        rcases dt with _ | a
        · have hx : infer_and_check_types false i none = .ok (some w) := by
            unfold infer_and_check_types
            rw [hca, hw]
            simp
          rw [hx] at h
          exact Except.noConfusion h
        · by_cases hne : a = w
          · subst hne
            have hx : infer_and_check_types false i (some a) = .ok (some a) := by
              unfold infer_and_check_types
              rw [hca, hw]
              simp
            rw [hx] at h
            exact Except.noConfusion h
          · exact Or.inr (Or.inr ⟨a, w, rfl, rfl, hne⟩)

/-- Counterexample to claim C8 as stated: a `CMOV` whose destination type is
still unknown but whose source is typed fails the check, because `CMOV`'s
argument check compares the declared destination type with the source type. -/
theorem cmov_unknown_destination_fails :
    infer_and_check_types false (.cmovShape (some .uint) (some .uint)) none =
      Except.error (PyErr.typeError "Types must match for CMOV") := by
  rfl

/-- Witness for claim C8: a `MOV` from a `Uint`-typed source into an untyped
destination assigns `Uint` to the destination. -/
theorem write_instruction_type_check_witness :
    infer_and_check_types false (.movShape (some .uint)) none = Except.ok (some .uint) :=
  (write_instruction_type_check (.movShape (some .uint)) none).1 rfl rfl .uint rfl

lemma pick_empty (pick : Finset Int → Option Int) (hp : PickValid pick) :
    pick ∅ = none := by
  cases h : pick ∅ with
  | none => rfl
  | some x => exact absurd (hp.1 ∅ x h) (Finset.not_mem_empty x)

lemma pickMin_valid : PickValid pickMin := by
  constructor
  · intro s x h
    unfold pickMin at h
    split at h
    · injection h with h'
      rw [← h']
      exact Finset.min'_mem s _
    · exact Option.noConfusion h
  · intro s hs
    unfold pickMin
    rw [dif_pos hs]
    rfl

lemma pickMax_valid : PickValid pickMax := by
  constructor
  · intro s x h
    unfold pickMax at h
    split at h
    · injection h with h'
      rw [← h']
      exact Finset.max'_mem s _
    · exact Option.noConfusion h
  · intro s hs
    unfold pickMax
    rw [dif_pos hs]
    rfl

lemma next_free_register_loc (pick : Finset Int → Option Int) (st : RAState) :
    (next_free_register pick st).2.loc = st.loc := by
  unfold next_free_register
  cases pick st.free_registers <;> rfl

lemma next_free_register_empty (pick : Finset Int → Option Int) (hp : PickValid pick)
    (st : RAState) (h : st.free_registers = ∅) :
    next_free_register pick st =
      (st.n_registers, { st with n_registers := st.n_registers + 1 }) := by
  unfold next_free_register
  rw [h, pick_empty pick hp]

lemma setLoc_loc_ne (st : RAState) (r : String) (v : Int) (x : String) (h : x ≠ r) :
    (setLoc st r v).loc x = st.loc x := by
  unfold setLoc
  simp [h]

lemma setLoc_loc_self (st : RAState) (r : String) (v : Int) :
    (setLoc st r v).loc r = v := by
  unfold setLoc
  simp

lemma assignRegister_loc_ne (pick : Finset Int → Option Int) (acc : RAState)
    (x r : String) (h : acc.loc r ≠ -1) :
    (assignRegister pick acc x).loc r = acc.loc r := by
  unfold assignRegister allocTo
  by_cases hx : acc.loc x = -1
  · rw [if_pos hx]
    have hxr : r ≠ x := fun he => h (by rw [he]; exact hx)
    rw [setLoc_loc_ne _ _ _ _ hxr, next_free_register_loc]
  · rw [if_neg hx]

lemma foldl_assign_preserve (pick : Finset Int → Option Int) (l : List String) :
    ∀ (st : RAState) (r : String), st.loc r ≠ -1 →
      (l.foldl (assignRegister pick) st).loc r = st.loc r := by
  induction l with
  | nil => intro st r _; rfl
  | cons x xs ih =>
    intro st r h
    simp only [List.foldl_cons]
    have hstep : (assignRegister pick st x).loc r = st.loc r :=
      assignRegister_loc_ne pick st x r h
    rw [ih (assignRegister pick st x) r (by rw [hstep]; exact h), hstep]

lemma freeIfDead_loc (rest : List Instr) (acc : RAState) (r : String) :
    (freeIfDead rest acc r).loc = acc.loc := by
  unfold freeIfDead
  split <;> rfl

lemma foldl_free_loc (rest : List Instr) (l : List String) :
    ∀ st : RAState, (l.foldl (freeIfDead rest) st).loc = st.loc := by
  induction l with
  | nil => intro st; rfl
  | cons x xs ih =>
    intro st
    simp only [List.foldl_cons]
    rw [ih (freeIfDead rest st x), freeIfDead_loc]

lemma raStep_loc_preserve (pick : Finset Int → Option Int) (st : RAState)
    (instr : Instr) (rest : List Instr) (r : String) (h : st.loc r ≠ -1) :
    (raStep pick st instr rest).loc r = st.loc r := by
  unfold raStep raFree raAssign
  rw [congrFun (foldl_free_loc rest instr.get_registers _) r]
  exact foldl_assign_preserve pick instr.get_registers st r h

lemma raLoop_loc_preserve (pick : Finset Int → Option Int) (instrs : List Instr) :
    ∀ (st : RAState) (r : String), st.loc r ≠ -1 →
      (raLoop pick st instrs).loc r = st.loc r := by
  induction instrs with
  | nil => intro st r _; rfl
  | cons instr rest ih =>
    intro st r h
    have hstep : (raStep pick st instr rest).loc r = st.loc r :=
      raStep_loc_preserve pick st instr rest r h
    show (raLoop pick (raStep pick st instr rest) rest).loc r = st.loc r
    rw [ih (raStep pick st instr rest) r (by rw [hstep]; exact h), hstep]

lemma allocParams_spec (pick : Finset Int → Option Int) (hp : PickValid pick) :
    ∀ (args : List String) (st : RAState), st.free_registers = ∅ → args.Nodup →
      (args.foldl (allocTo pick) st).free_registers = ∅ ∧
      (∀ r, r ∉ args → (args.foldl (allocTo pick) st).loc r = st.loc r) ∧
      (∀ i, i < args.length →
        (args.foldl (allocTo pick) st).loc (args.getD i "") =
          st.n_registers + (i : Int)) := by
  intro args
  induction args with
  | nil =>
    intro st h _
    exact ⟨h, fun r _ => rfl, fun i hi => absurd hi (by simp)⟩
  | cons a rest ih =>
    intro st h hn
    have hstep : allocTo pick st a =
        setLoc { st with n_registers := st.n_registers + 1 } a st.n_registers := by
      unfold allocTo
      rw [next_free_register_empty pick hp st h]
    have hfree' : (allocTo pick st a).free_registers = ∅ := by
      rw [hstep]
      exact h
    obtain ⟨hf, hpres, hidx⟩ :=
      ih (allocTo pick st a) hfree' (List.nodup_cons.mp hn).2
    refine ⟨hf, ?_, ?_⟩
    · intro r hr
      simp only [List.foldl_cons]
      rw [hpres r (fun hmem => hr (List.mem_cons_of_mem _ hmem)), hstep,
        setLoc_loc_ne _ _ _ _ (fun he => hr (by rw [he]; exact List.mem_cons_self a rest))]
    · intro i hi
      cases i with
      | zero =>
        have hnotin : a ∉ rest := (List.nodup_cons.mp hn).1
        simp only [List.foldl_cons, List.getD_cons_zero]
        rw [hpres a hnotin, hstep, setLoc_loc_self]
        simp
      | succ j =>
        have hj : j < rest.length := by
          simpa using hi
        have := hidx j hj
        simp only [List.foldl_cons, List.getD_cons_succ]
        rw [this, hstep]
        show ({ st with n_registers := st.n_registers + 1 } : RAState).n_registers + (j : Int) =
          st.n_registers + ((j : Nat) + 1 : Nat)
        push_cast
        ring

/-- Claim C6 (confirmed): whatever element `set.pop` returns, after
`RegisterAllocation.run` the `me` register has slot `0` and the i-th argument
register has slot `i + 1` (the pool is empty while they are allocated, so the
monotone counter hands out `0, 1, 2, …`). -/
theorem register_allocation_me_and_args (pick : Finset Int → Option Int)
    (hp : PickValid pick) (f : AFunction)
    (hargs : f.argument_registers.Nodup)
    (hme : f.me_register ∉ f.argument_registers) :
    (RegisterAllocation.run pick f).loc f.me_register = 0 ∧
    ∀ i, i < f.argument_registers.length →
      (RegisterAllocation.run pick f).loc (f.argument_registers.getD i "") =
        (i : Int) + 1 := by
  unfold RegisterAllocation.run
  have hst0 : ({ free_registers := ∅, n_registers := 0, loc := fun _ => -1 } :
      RAState).free_registers = ∅ := rfl
  have hstep : allocTo pick { free_registers := ∅, n_registers := 0, loc := fun _ => -1 }
      f.me_register =
      setLoc { free_registers := ∅, n_registers := 1, loc := fun _ => -1 }
        f.me_register 0 := by
    unfold allocTo
    rw [next_free_register_empty pick hp _ hst0]
    exact rfl
  have hfree1 : (allocTo pick
      { free_registers := ∅, n_registers := 0, loc := fun _ => -1 } f.me_register
      ).free_registers = ∅ := by
    rw [hstep]
    rfl
  obtain ⟨hfA, hpresA, hidxA⟩ :=
    allocParams_spec pick hp f.argument_registers _ hfree1 hargs
  have hmeA : (f.argument_registers.foldl (allocTo pick)
      (allocTo pick { free_registers := ∅, n_registers := 0, loc := fun _ => -1 }
        f.me_register)).loc f.me_register = 0 := by
    rw [hpresA f.me_register hme, hstep, setLoc_loc_self]
  constructor
  · rw [raLoop_loc_preserve pick f.get_all_instructions _ f.me_register
      (by rw [hmeA]; exact (by decide : (0 : Int) ≠ -1)), hmeA]
  · intro i hi
    have hargA := hidxA i hi
    have hn1 : (allocTo pick
        { free_registers := ∅, n_registers := 0, loc := fun _ => -1 } f.me_register
        ).n_registers = 1 := by
      rw [hstep]
      rfl
    rw [hn1] at hargA
    have hne : (1 : Int) + (i : Int) ≠ -1 := by omega
    rw [raLoop_loc_preserve pick f.get_all_instructions _ _
      (by rw [hargA]; exact hne), hargA]
    omega

/-- Witness for claim C6: on the concrete function `fC6`, `me` gets slot 0 and
the second argument register gets slot 2. -/
theorem register_allocation_me_and_args_witness :
    (RegisterAllocation.run pickMin fC6).loc fC6.me_register = 0 ∧
    (RegisterAllocation.run pickMin fC6).loc (fC6.argument_registers.getD 1 "") =
      (1 : Int) + 1 := by
  have h := register_allocation_me_and_args pickMin pickMin_valid fC6
    (by decide) (by decide)
  exact ⟨h.1, h.2 1 (by decide)⟩

lemma foldl_free_mono (rest : List Instr) (l : List String) :
    ∀ (st : RAState) (v : Int), v ∈ st.free_registers →
      v ∈ (l.foldl (freeIfDead rest) st).free_registers := by
  induction l with
  | nil => intro st v h; exact h
  | cons x xs ih =>
    intro st v h
    simp only [List.foldl_cons]
    apply ih
    unfold freeIfDead
    split
    · exact Finset.mem_insert_of_mem h
    · exact h

lemma foldl_free_mem (rest : List Instr) (l : List String) :
    ∀ (st : RAState) (r : String), r ∈ l →
      rest.all (fun later => ¬ later.get_registers.contains r) = true →
      st.loc r ∈ (l.foldl (freeIfDead rest) st).free_registers := by
  induction l with
  | nil => intro st r h; cases h
  | cons x xs ih =>
    intro st r hmem hdead
    simp only [List.foldl_cons]
    rcases List.mem_cons.mp hmem with rfl | hmem'
    · apply foldl_free_mono
      unfold freeIfDead
      rw [if_pos hdead]
      exact Finset.mem_insert_self _ _
    · have hloc : (freeIfDead rest st x).loc r = st.loc r :=
        congrFun (freeIfDead_loc rest st x) r
      rw [← hloc]
      exact ih (freeIfDead rest st x) r hmem' hdead

/-- Claim C5 (corrected): `_next_free_register` pops an arbitrary element of
the free pool (`set.pop` gives no ordering guarantee, modelled by the
`PickValid` choice function) — removing it from the pool and leaving the
counter alone — and takes the incremented counter only when the pool is
empty; registers that already have a slot are not reassigned, and after each
instruction the slot of every register whose last use is that instruction is
back in the free pool. -/
theorem register_allocation_pool_behaviour (pick : Finset Int → Option Int)
    (hp : PickValid pick) :
    (∀ st : RAState, st.free_registers.Nonempty →
      (next_free_register pick st).1 ∈ st.free_registers ∧
      (next_free_register pick st).2.free_registers =
        st.free_registers.erase (next_free_register pick st).1 ∧
      (next_free_register pick st).2.n_registers = st.n_registers) ∧
    (∀ st : RAState, st.free_registers = ∅ →
      (next_free_register pick st).1 = st.n_registers ∧
      (next_free_register pick st).2.n_registers = st.n_registers + 1 ∧
      (next_free_register pick st).2.free_registers = ∅) ∧
    (∀ (st : RAState) (instr : Instr) (rest : List Instr) (r : String),
      st.loc r ≠ -1 → (raStep pick st instr rest).loc r = st.loc r) ∧
    (∀ (st : RAState) (instr : Instr) (rest : List Instr) (r : String),
      r ∈ instr.get_registers →
      rest.all (fun later => ¬ later.get_registers.contains r) = true →
      (raStep pick st instr rest).loc r ∈ (raStep pick st instr rest).free_registers) := by
  refine ⟨?_, ?_, ?_, ?_⟩
  · intro st hne
    cases hpk : pick st.free_registers with
    | none =>
      have := hp.2 st.free_registers hne
      rw [hpk] at this
      exact absurd this (by simp)
    | some x =>
      unfold next_free_register
      rw [hpk]
      exact ⟨hp.1 _ x hpk, rfl, rfl⟩
  · intro st h
    rw [next_free_register_empty pick hp st h]
    exact ⟨rfl, rfl, h⟩
  · intro st instr rest r h
    exact raStep_loc_preserve pick st instr rest r h
  · intro st instr rest r hmem hdead
    unfold raStep raFree
    rw [congrFun (foldl_free_loc rest instr.get_registers (raAssign pick st instr)) r]
    exact foldl_free_mem rest instr.get_registers (raAssign pick st instr) r hmem hdead

/-- Witness for claim C5 (corrected form): with the concrete pop behaviour
`pickMin`, popping from the pool `·⦃0, 1⦄· returns a member of the pool. -/
theorem register_allocation_pool_behaviour_witness :
    (next_free_register pickMin
      { free_registers := insert 0 (insert 1 (∅ : Finset Int)), n_registers := 5,
        loc := fun _ => -1 }).1 ∈
      (insert 0 (insert 1 (∅ : Finset Int)) : Finset Int) := by
  have h := (register_allocation_pool_behaviour pickMin pickMin_valid).1
    { free_registers := insert 0 (insert 1 (∅ : Finset Int)), n_registers := 5,
      loc := fun _ => -1 } (by decide)
  exact h.1

/-- Counterexample to claim C5 as stated: with the legitimate pop behaviour
`pickMax`, register `c` of `fC5` is assigned slot 1 even though slot 0 is in
the free pool at that moment (the equally legitimate `pickMin` hands it 0), so
the code does not pin down the lowest-numbered free slot. -/
theorem register_allocation_not_lowest_slot :
    PickValid pickMax ∧
    (RegisterAllocation.run pickMax fC5).loc "c" = 1 ∧
    (RegisterAllocation.run pickMin fC5).loc "c" = 0 := by
  refine ⟨pickMax_valid, ?_, ?_⟩ <;> decide

lemma lookup_mem {α β : Type} [BEq α] [LawfulBEq α] :
    ∀ (l : List (α × β)) (a : α) (b : β), List.lookup a l = some b → (a, b) ∈ l := by
  intro l
  induction l with
  | nil => intro a b h; exact Option.noConfusion h
  | cons e es ih =>
    intro a b h
    obtain ⟨k, v⟩ := e
    by_cases hak : a = k
    · subst hak
      simp only [List.lookup, beq_self_eq_true] at h
      injection h with h'
      subst h'
      exact List.mem_cons_self _ _
    · have hbeq : (a == k) = false := beq_eq_false_iff_ne.mpr hak
      simp only [List.lookup, hbeq] at h
      exact List.mem_cons_of_mem _ (ih a b h)

lemma lookup_isSome_of_mem {α β : Type} [BEq α] [LawfulBEq α] :
    ∀ (l : List (α × β)) (a : α) (b : β), (a, b) ∈ l → (List.lookup a l).isSome = true := by
  intro l
  induction l with
  | nil => intro a b h; cases h
  | cons e es ih =>
    intro a b h
    obtain ⟨k, v⟩ := e
    by_cases hak : a = k
    · subst hak
      simp [List.lookup]
    · have hbeq : (a == k) = false := beq_eq_false_iff_ne.mpr hak
      simp only [List.lookup, hbeq]
      rcases List.mem_cons.mp h with heq | hmem
      · exact absurd (congrArg Prod.fst heq) hak
      · exact ih a b hmem

lemma lookup_eq_of_nodup {α β : Type} [BEq α] [LawfulBEq α] :
    ∀ (l : List (α × β)) (a : α) (b : β), (l.map Prod.fst).Nodup → (a, b) ∈ l →
      List.lookup a l = some b := by
  intro l
  induction l with
  | nil => intro a b _ h; cases h
  | cons e es ih =>
    intro a b hnd h
    obtain ⟨k, v⟩ := e
    rcases List.mem_cons.mp h with heq | hmem
    · injection heq with h1 h2
      subst h1
      subst h2
      simp [List.lookup]
    · by_cases hak : a = k
      · subst hak
        exfalso
        have : a ∈ es.map Prod.fst := List.mem_map.mpr ⟨(a, b), hmem, rfl⟩
        exact (List.nodup_cons.mp (by simpa using hnd)).1 this
      · have hbeq : (a == k) = false := beq_eq_false_iff_ne.mpr hak
        simp only [List.lookup, hbeq]
        exact ih a b (List.nodup_cons.mp (by simpa using hnd)).2 hmem

lemma lookup_map_keyval {α β : Type} [BEq α] [LawfulBEq α] (upd : α → β → β) :
    ∀ (l : List (α × β)) (c : α),
      List.lookup c (l.map (fun e => (e.1, upd e.1 e.2))) =
        (List.lookup c l).map (fun v => upd c v) := by
  intro l
  induction l with
  | nil => intro c; rfl
  | cons e es ih =>
    intro c
    obtain ⟨k, v⟩ := e
    by_cases hck : c = k
    · subst hck
      simp [List.lookup]
    · have hbeq : (c == k) = false := beq_eq_false_iff_ne.mpr hck
      simp [List.lookup, hbeq, ih c]

lemma updateStorage_classes_eq (storage : Storage) (cls fn : String) (f' : AFunction) :
    (updateStorage storage cls fn f').classes =
      storage.classes.map (fun e =>
        (e.1, if e.1 = cls then
          e.2.map (fun fe => (fe.1, if fe.1 = fn then f' else fe.2)) else e.2)) := by
  unfold updateStorage
  apply List.map_congr_left
  intro e _
  by_cases hc : e.1 = cls
  · rw [if_pos hc, if_pos hc]
    have hinner : e.2.map (fun fe => if fe.1 = fn then (fe.1, f') else fe) =
        e.2.map (fun fe => (fe.1, if fe.1 = fn then f' else fe.2)) := by
      apply List.map_congr_left
      intro fe _
      by_cases hf : fe.1 = fn
      · rw [if_pos hf, if_pos hf]
      · rw [if_neg hf, if_neg hf]
    rw [hinner]
  · rw [if_neg hc, if_neg hc]

lemma lookupFunction_updateStorage (storage : Storage) (cls fn : String)
    (f' : AFunction) (c n : String) :
    lookupFunction (updateStorage storage cls fn f') c n =
      (lookupFunction storage c n).map
        (fun g => if c = cls ∧ n = fn then f' else g) := by
  unfold lookupFunction
  rw [updateStorage_classes_eq,
    lookup_map_keyval (fun k fns =>
      if k = cls then fns.map (fun fe => (fe.1, if fe.1 = fn then f' else fe.2)) else fns)
      storage.classes c]
  cases h : List.lookup c storage.classes with
  | none => rfl
  | some fns =>
    simp only [Option.map_some']
    by_cases hc : c = cls
    · rw [if_pos hc,
        lookup_map_keyval (fun k v => if k = fn then f' else v) fns n]
      cases hn : List.lookup n fns with
      | none => rfl
      | some g =>
        by_cases hnf : n = fn
        · simp [hc, hnf]
        · simp [hnf]
    · rw [if_neg hc]
      have hcond : ∀ g : AFunction, (if c = cls ∧ n = fn then f' else g) = g := by
        intro g
        rw [if_neg (fun hand => hc hand.1)]
      cases List.lookup n fns with
      | none => rfl
      | some g => simp [hcond g]

lemma lookupFunction_updateStorage_isSome (storage : Storage) (cls fn : String)
    (f' : AFunction) (c n : String) :
    (lookupFunction (updateStorage storage cls fn f') c n).isSome =
      (lookupFunction storage c n).isSome := by
  rw [lookupFunction_updateStorage]
  cases lookupFunction storage c n <;> rfl

lemma lookupFunction_updateStorage_ne (storage : Storage) (cls fn : String)
    (f' : AFunction) (c n : String) (h : ¬(c = cls ∧ n = fn)) :
    lookupFunction (updateStorage storage cls fn f') c n =
      lookupFunction storage c n := by
  rw [lookupFunction_updateStorage]
  cases lookupFunction storage c n with
  | none => rfl
  | some g => simp [h]

lemma lookupFunction_updateStorage_self (storage : Storage) (cls fn : String)
    (f' : AFunction) (g : AFunction)
    (h : lookupFunction storage cls fn = some g) :
    lookupFunction (updateStorage storage cls fn f') cls fn = some f' := by
  rw [lookupFunction_updateStorage, h]
  simp

lemma mem_foldl_addCalled :
    ∀ (l : List Instr) (acc : List (String × String)) (t : String × String),
      t ∈ l.foldl addCalled acc ↔ t ∈ acc ∨ t ∈ callTargets l := by
  intro l
  induction l with
  | nil =>
    intro acc t
    simp [callTargets]
  | cons i rest ih =>
    intro acc t
    simp only [List.foldl_cons]
    rw [ih]
    cases i with
    | call dst cls fn sis args =>
      have haddc : addCalled acc (Instr.call dst cls fn sis args) =
          if acc.contains (cls, fn) = true then acc else acc ++ [(cls, fn)] := rfl
      rw [haddc]
      by_cases hcont : acc.contains (cls, fn) = true
      · rw [if_pos hcont]
        have hmemacc : (cls, fn) ∈ acc := by simpa using hcont
        simp only [callTargets, List.filterMap_cons]
        constructor
        · rintro (ha | ht)
          · exact Or.inl ha
          · exact Or.inr (List.mem_cons_of_mem _ ht)
        · rintro (ha | ht)
          · exact Or.inl ha
          · rcases List.mem_cons.mp ht with rfl | ht'
            · exact Or.inl hmemacc
            · exact Or.inr ht'
      · rw [if_neg hcont]
        simp only [callTargets, List.filterMap_cons]
        constructor
        · rintro (ha | ht)
          · rcases List.mem_append.mp ha with h1 | h2
            · exact Or.inl h1
            · rcases List.mem_singleton.mp h2 with rfl
              exact Or.inr (List.mem_cons_self _ _)
          · exact Or.inr (List.mem_cons_of_mem _ ht)
        · rintro (ha | ht)
          · exact Or.inl (List.mem_append_left _ ha)
          · rcases List.mem_cons.mp ht with rfl | ht'
            · exact Or.inl (List.mem_append_right _ (List.mem_singleton.mpr rfl))
            · exact Or.inr ht'
    | noop => simp [addCalled, callTargets]
    | mov dst src => simp [addCalled, callTargets]
    | cmov dst cond src => simp [addCalled, callTargets]
    | req cond => simp [addCalled, callTargets]
    | load dst obj fld => simp [addCalled, callTargets]
    | store src obj fld => simp [addCalled, callTargets]
    | kill obj => simp [addCalled, callTargets]
    | pk dst obj => simp [addCalled, callTargets]
    | new dst className => simp [addCalled, callTargets]
    | cid dst obj => simp [addCalled, callTargets]
    | fresh dst => simp [addCalled, callTargets]
    | now dst => simp [addCalled, callTargets]
    | binop op dst v1 v2 => simp [addCalled, callTargets]

lemma mem_called_iff (instrs : List Instr) (t : String × String) :
    t ∈ get_called_function_names instrs ↔ t ∈ callTargets instrs := by
  unfold get_called_function_names
  rw [mem_foldl_addCalled]
  simp

lemma cloneInstr_isCall (p : String) (i : Instr) :
    (cloneInstr p i).isCall = i.isCall := by
  cases i <;> rfl

lemma callFreeB_iff (f : AFunction) :
    callFreeB f = true ↔ ∀ i ∈ f.instructions, i.isCall = false := by
  unfold callFreeB
  rw [List.all_eq_true]
  constructor
  · intro h i hi
    have := h i hi
    simpa using this
  · intro h i hi
    simpa using h i hi

lemma clone_for_inlining_callFree (p : String) (g : AFunction)
    (h : callFreeB g = true) : callFreeB (clone_for_inlining p g) = true := by
  rw [callFreeB_iff] at h ⊢
  intro i hi
  unfold clone_for_inlining at hi
  simp only [List.mem_map] at hi
  obtain ⟨j, hj, rfl⟩ := hi
  rw [cloneInstr_isCall]
  exact h j hj

lemma mem_callTargets_of_call (l : List Instr) (dst cls fn : String) (sis : Bool)
    (args : List Val) (h : Instr.call dst cls fn sis args ∈ l) :
    (cls, fn) ∈ callTargets l := by
  unfold callTargets
  exact List.mem_filterMap.mpr ⟨Instr.call dst cls fn sis args, h, rfl⟩

lemma inlineOneInstr_call_eq (storage : Storage) (f : AFunction) (i : Nat)
    (dst cls fn : String) (sis : Bool) (args : List Val) :
    inlineOneInstr storage f i (Instr.call dst cls fn sis args) =
      match lookupFunction storage cls fn with
      | none => .error (.keyError (cls ++ "." ++ fn))
      | some calleeCurrent =>
        inlineCallSegment f (clone_for_inlining ("inlined#" ++ toString i) calleeCurrent)
          dst sis args := rfl

lemma meBinding_ok_not_call (f callee : AFunction) (sis : Bool) (mb : List Instr)
    (h : meBinding f callee sis = .ok mb) : ∀ j ∈ mb, j.isCall = false := by
  unfold meBinding at h
  split at h
  · split at h
    · exact Except.noConfusion h
    · injection h with h'
      subst h'
      intro j hj
      rw [List.mem_singleton] at hj
      subst hj
      rfl
  · injection h with h'
    subst h'
    intro j hj
    rw [List.mem_singleton] at hj
    subst hj
    rfl

lemma zipWith_mov_not_call (l1 : List String) :
    ∀ (l2 : List Val), ∀ j ∈ List.zipWith (fun p a => Instr.mov p a) l1 l2,
      j.isCall = false := by
  induction l1 with
  | nil =>
    intro l2 j hj
    simp at hj
  | cons p ps ih =>
    intro l2 j hj
    cases l2 with
    | nil => simp at hj
    | cons a as =>
      rcases List.mem_cons.mp hj with rfl | hj'
      · rfl
      · exact ih as j hj'

lemma inlineCallSegment_ok_callFree (f callee : AFunction) (dst : String)
    (sis : Bool) (args : List Val) (out : List Instr)
    (h : inlineCallSegment f callee dst sis args = .ok out)
    (hcf : callFreeB callee = true) :
    ∀ j ∈ out, j.isCall = false := by
  unfold inlineCallSegment at h
  split at h
  · exact Except.noConfusion h
  · rename_i mb hmb
    injection h with h'
    subst h'
    intro j hj
    rcases List.mem_append.mp hj with h1 | h2
    · rcases List.mem_append.mp h1 with h3 | h4
      · rcases List.mem_append.mp h3 with h5 | h6
        · exact meBinding_ok_not_call f callee sis mb hmb j h5
        · exact zipWith_mov_not_call _ _ j h6
      · exact (callFreeB_iff callee).mp hcf j h4
    · rw [List.mem_singleton] at h2
      subst h2
      rfl

lemma inlineOneInstr_ok_callFree (storage : Storage) (f : AFunction) (i : Nat)
    (instr : Instr) (seg : List Instr)
    (h : inlineOneInstr storage f i instr = .ok seg)
    (hcallee : ∀ dst cls fn sis args, instr = Instr.call dst cls fn sis args →
      ∀ g, lookupFunction storage cls fn = some g → callFreeB g = true) :
    ∀ j ∈ seg, j.isCall = false := by
  cases instr
  case call dst cls fn sis args =>
    rw [inlineOneInstr_call_eq] at h
    cases hl : lookupFunction storage cls fn with
    | none =>
      rw [hl] at h
      exact Except.noConfusion h
    | some g =>
      rw [hl] at h
      exact inlineCallSegment_ok_callFree _ _ _ _ _ _ h
        (clone_for_inlining_callFree _ g (hcallee dst cls fn sis args rfl g hl))
  all_goals
    (injection h with h';
     subst h';
     intro j hj;
     rw [List.mem_singleton] at hj;
     subst hj;
     rfl)

lemma inlineInstrs_ok_callFree (storage : Storage) (f : AFunction) :
    ∀ (l : List Instr) (i : Nat) (out : List Instr),
      inlineInstrs storage f i l = .ok out →
      (∀ dst cls fn sis args, Instr.call dst cls fn sis args ∈ l →
        ∀ g, lookupFunction storage cls fn = some g → callFreeB g = true) →
      ∀ j ∈ out, j.isCall = false := by
  intro l
  induction l with
  | nil =>
    intro i out h _
    injection h with h'
    subst h'
    intro j hj
    exact absurd hj (List.not_mem_nil j)
  | cons instr rest ih =>
    intro i out h hcall
    simp only [inlineInstrs] at h
    cases hseg : inlineOneInstr storage f i instr with
    | error e =>
      rw [hseg] at h
      exact Except.noConfusion h
    | ok seg =>
      rw [hseg] at h
      cases hrest : inlineInstrs storage f (i + 1) rest with
      | error e =>
        rw [hrest] at h
        exact Except.noConfusion h
      | ok restOut =>
        rw [hrest] at h
        injection h with h'
        subst h'
        intro j hj
        rcases List.mem_append.mp hj with h1 | h2
        · exact inlineOneInstr_ok_callFree storage f i instr seg hseg
            (fun dst cls fn sis args he g hg =>
              hcall dst cls fn sis args
                (by rw [← he]; exact List.mem_cons_self _ _) g hg) j h1
        · exact ih (i + 1) restOut hrest
            (fun dst cls fn sis args hm g hg =>
              hcall dst cls fn sis args (List.mem_cons_of_mem _ hm) g hg) j h2

lemma inline_ok_callFree (storage : Storage) (f f' : AFunction)
    (h : AFunction.inline storage f = .ok f')
    (hcall : ∀ t ∈ callTargets f.instructions,
      ∀ g, lookupFunction storage t.1 t.2 = some g → callFreeB g = true) :
    callFreeB f' = true := by
  unfold AFunction.inline at h
  cases hii : inlineInstrs storage f 0 f.instructions with
  | error e =>
    rw [hii] at h
    exact Except.noConfusion h
  | ok out =>
    rw [hii] at h
    injection h with h'
    rw [callFreeB_iff]
    intro j hj
    have hj' : j ∈ out := by
      rw [← h'] at hj
      exact hj
    exact inlineInstrs_ok_callFree storage f f.instructions 0 out hii
      (fun dst cls fn sis args hm g hg =>
        hcall (cls, fn) (mem_callTargets_of_call _ _ _ _ _ _ hm) g hg) j hj'

lemma meBinding_ok_exists (f callee : AFunction) (sis : Bool)
    (h : sis = true → f.argument_registers ≠ []) :
    ∃ mb, meBinding f callee sis = .ok mb := by
  unfold meBinding
  cases sis with
  | false => exact ⟨_, rfl⟩
  | true =>
    cases hargs : f.argument_registers with
    | nil => exact absurd hargs (h rfl)
    | cons a0 as => exact ⟨_, rfl⟩

lemma inlineOneInstr_ok_exists (storage : Storage) (f : AFunction) (i : Nat)
    (instr : Instr)
    (hins : ∀ dst cls fn sis args, instr = Instr.call dst cls fn sis args →
      (lookupFunction storage cls fn).isSome = true ∧
      (sis = true → f.argument_registers ≠ [])) :
    ∃ seg, inlineOneInstr storage f i instr = .ok seg := by
  cases instr
  case call dst cls fn sis args =>
    obtain ⟨hsome, hsis⟩ := hins dst cls fn sis args rfl
    cases hl : lookupFunction storage cls fn with
    | none =>
      rw [hl] at hsome
      exact absurd hsome (by simp)
    | some g =>
      obtain ⟨mb, hmb⟩ :=
        meBinding_ok_exists f (clone_for_inlining ("inlined#" ++ toString i) g) sis hsis
      cases hmb2 : inlineCallSegment f (clone_for_inlining ("inlined#" ++ toString i) g)
          dst sis args with
      | error e =>
        exfalso
        unfold inlineCallSegment at hmb2
        rw [hmb] at hmb2
        exact Except.noConfusion hmb2
      | ok seg =>
        refine ⟨seg, ?_⟩
        rw [inlineOneInstr_call_eq, hl]
        exact hmb2
  all_goals exact ⟨_, rfl⟩

lemma inlineInstrs_ok_exists (storage : Storage) (f : AFunction) :
    ∀ (l : List Instr) (i : Nat),
      (∀ instr ∈ l, ∀ dst cls fn sis args, instr = Instr.call dst cls fn sis args →
        (lookupFunction storage cls fn).isSome = true ∧
        (sis = true → f.argument_registers ≠ [])) →
      ∃ out, inlineInstrs storage f i l = .ok out := by
  intro l
  induction l with
  | nil => intro i _; exact ⟨[], rfl⟩
  | cons instr rest ih =>
    intro i hins
    obtain ⟨seg, hseg⟩ := inlineOneInstr_ok_exists storage f i instr
      (hins instr (List.mem_cons_self _ _))
    obtain ⟨out, hout⟩ := ih (i + 1)
      (fun j hm => hins j (List.mem_cons_of_mem _ hm))
    refine ⟨seg ++ out, ?_⟩
    simp only [inlineInstrs]
    rw [hseg, hout]

lemma inline_ok_exists (storage : Storage) (f : AFunction)
    (h1 : ∀ t ∈ callTargets f.instructions,
      (lookupFunction storage t.1 t.2).isSome = true)
    (h2 : hasSenderSelfCall f = true → f.argument_registers ≠ []) :
    ∃ f', AFunction.inline storage f = .ok f' := by
  obtain ⟨out, hout⟩ := inlineInstrs_ok_exists storage f f.instructions 0
    (fun instr hm dst cls fn sis args he =>
      ⟨h1 (cls, fn) (mem_callTargets_of_call _ _ _ _ _ _ (by rw [← he]; exact hm)),
       fun hsis => h2 (by
        unfold hasSenderSelfCall
        rw [List.any_eq_true]
        exact ⟨instr, hm, by rw [he]; exact hsis⟩)⟩)
  cases hres : AFunction.inline storage f with
  | ok f' => exact ⟨f', rfl⟩
  | error e =>
    exfalso
    unfold AFunction.inline at hres
    rw [hout] at hres
    exact Except.noConfusion hres

lemma inlineFunctionInStorage_eq_some (storage : Storage) (cls fn : String)
    (g : AFunction) (hg : lookupFunction storage cls fn = some g) :
    inlineFunctionInStorage storage cls fn =
      match AFunction.inline storage g with
      | .error e => .error e
      | .ok f' => .ok (updateStorage storage cls fn f') := by
  unfold inlineFunctionInStorage
  rw [hg]

lemma inlineFunctionInStorage_ok (storage : Storage) (cls fn : String)
    (g : AFunction) (hg : lookupFunction storage cls fn = some g)
    (h1 : ∀ t ∈ callTargets g.instructions,
      (lookupFunction storage t.1 t.2).isSome = true)
    (h2 : hasSenderSelfCall g = true → g.argument_registers ≠ []) :
    ∃ f', AFunction.inline storage g = .ok f' ∧
      inlineFunctionInStorage storage cls fn = .ok (updateStorage storage cls fn f') := by
  obtain ⟨f', hf'⟩ := inline_ok_exists storage g h1 h2
  refine ⟨f', hf', ?_⟩
  rw [inlineFunctionInStorage_eq_some storage cls fn g hg, hf']

lemma inlineLoop_cons_eq (fuel : Nat) (storage : Storage)
    (g0 : (String × String) × List (String × String)) (g1 : CallGraph) :
    inlineLoop (fuel + 1) storage (g0 :: g1) =
      match (g0 :: g1).find? (fun kv => kv.2.isEmpty) with
      | none => .error (.assertionError "detected cycle in call graph, cannot inline")
      | some (k, _) =>
        match inlineFunctionInStorage storage k.1 k.2 with
        | .error e => .error e
        | .ok storage' => inlineLoop fuel storage' (shrinkGraph (g0 :: g1) k) := rfl

lemma mem_shrinkGraph (g : CallGraph) (k k' : String × String)
    (es' : List (String × String)) (h : (k', es') ∈ shrinkGraph g k) :
    ∃ es0, (k', es0) ∈ g ∧ k' ≠ k ∧ es' = es0.erase k := by
  unfold shrinkGraph at h
  rw [List.mem_map] at h
  obtain ⟨kv, hkv, heq⟩ := h
  rw [List.mem_filter] at hkv
  injection heq with h1 h2
  refine ⟨kv.2, ?_, ?_, h2.symm⟩
  · rw [← h1, Prod.mk.eta]
    exact hkv.1
  · rw [← h1]
    simpa using hkv.2

lemma shrink_mem_of_mem (g : CallGraph) (k k' : String × String)
    (es0 : List (String × String)) (h : (k', es0) ∈ g) (hne : k' ≠ k) :
    (k', es0.erase k) ∈ shrinkGraph g k := by
  unfold shrinkGraph
  rw [List.mem_map]
  refine ⟨(k', es0), ?_, rfl⟩
  rw [List.mem_filter]
  exact ⟨h, by simpa using hne⟩

lemma keys_shrink_subset (g : CallGraph) (k t : String × String)
    (h : t ∈ graphKeys (shrinkGraph g k)) : t ∈ graphKeys g := by
  unfold graphKeys at h ⊢
  rw [List.mem_map] at h
  obtain ⟨kv, hkv, heq⟩ := h
  obtain ⟨es0, h0, -, -⟩ := mem_shrinkGraph g k kv.1 kv.2 (by
    rw [← Prod.mk.eta (p := kv)] at hkv
    exact hkv)
  exact List.mem_map.mpr ⟨(kv.1, es0), h0, heq⟩

lemma k_not_in_shrink (g : CallGraph) (k : String × String) :
    k ∉ graphKeys (shrinkGraph g k) := by
  intro h
  unfold graphKeys at h
  rw [List.mem_map] at h
  obtain ⟨kv, hkv, heq⟩ := h
  obtain ⟨es0, -, hne, -⟩ := mem_shrinkGraph g k kv.1 kv.2 (by
    rw [← Prod.mk.eta (p := kv)] at hkv
    exact hkv)
  exact hne heq

lemma keys_cases (g : CallGraph) (k t : String × String) (h : t ∈ graphKeys g) :
    t = k ∨ t ∈ graphKeys (shrinkGraph g k) := by
  by_cases htk : t = k
  · exact Or.inl htk
  · right
    unfold graphKeys at h
    rw [List.mem_map] at h
    obtain ⟨kv, hkv, heq⟩ := h
    have hkv' : (t, kv.2) ∈ g := by
      rw [← heq, Prod.mk.eta]
      exact hkv
    unfold graphKeys
    exact List.mem_map.mpr ⟨(t, kv.2.erase k), shrink_mem_of_mem g k t kv.2 hkv' htk, rfl⟩

lemma keys_nodup_shrink (g : CallGraph) (k : String × String)
    (h : (graphKeys g).Nodup) : (graphKeys (shrinkGraph g k)).Nodup := by
  unfold graphKeys shrinkGraph
  rw [List.map_map]
  have : (Prod.fst ∘ fun kv : (String × String) × List (String × String) =>
      (kv.1, kv.2.erase k)) = Prod.fst := by
    funext kv
    rfl
  rw [this]
  exact List.Nodup.sublist (List.Sublist.map Prod.fst (List.filter_sublist g)) h

lemma nodup_values_unique (g : CallGraph) (k : String × String)
    (v1 v2 : List (String × String)) (hnd : (graphKeys g).Nodup)
    (h1 : (k, v1) ∈ g) (h2 : (k, v2) ∈ g) : v1 = v2 := by
  induction g with
  | nil => cases h1
  | cons e es ih =>
    have hnd' : e.1 ∉ List.map Prod.fst es ∧ (List.map Prod.fst es).Nodup := by
      have hx := hnd
      unfold graphKeys at hx
      rw [List.map_cons, List.nodup_cons] at hx
      exact hx
    rcases List.mem_cons.mp h1 with he1 | hm1 <;>
      rcases List.mem_cons.mp h2 with he2 | hm2
    · rw [← he1] at he2
      injection he2 with h h'
      exact h'.symm
    · exfalso
      apply hnd'.1
      have hk : e.1 = k := by rw [← he1]
      rw [hk]
      exact List.mem_map.mpr ⟨(k, v2), hm2, rfl⟩
    · exfalso
      apply hnd'.1
      have hk : e.1 = k := by rw [← he2]
      rw [hk]
      exact List.mem_map.mpr ⟨(k, v1), hm1, rfl⟩
    · exact ih hnd'.2 hm1 hm2

lemma inlineFunctionInStorage_ok_inv (storage : Storage) (c n : String)
    (s1 : Storage) (h : inlineFunctionInStorage storage c n = .ok s1) :
    ∃ f, lookupFunction storage c n = some f ∧
      ∃ f', AFunction.inline storage f = .ok f' ∧
        s1 = updateStorage storage c n f' := by
  unfold inlineFunctionInStorage at h
  split at h
  · exact Except.noConfusion h
  · rename_i f hf
    split at h
    · exact Except.noConfusion h
    · rename_i f' hf'
      injection h with h'
      exact ⟨f, hf, f', hf', h'.symm⟩

lemma inlineLoop_callFree :
    ∀ (fuel : Nat) (storage : Storage) (G : CallGraph) (storage' : Storage),
      inlineLoop fuel storage G = .ok storage' →
      (∀ c n g, lookupFunction storage c n = some g →
        (c, n) ∉ graphKeys G → callFreeB g = true) →
      (∀ k es, (k, es) ∈ G → ∀ g, lookupFunction storage k.1 k.2 = some g →
        ∀ t ∈ callTargets g.instructions, t ∈ es ∨ t ∉ graphKeys G) →
      ∀ c n g, lookupFunction storage' c n = some g → callFreeB g = true := by
  intro fuel
  induction fuel with
  | zero =>
    intro storage G storage' h hA hB
    cases G with
    | nil =>
      injection h with h'
      subst h'
      intro c n g hl
      exact hA c n g hl (by simp [graphKeys])
    | cons g0 g1 => exact Except.noConfusion h
  | succ fuel ih =>
    intro storage G storage' h hA hB
    cases G with
    | nil =>
      injection h with h'
      subst h'
      intro c n g hl
      exact hA c n g hl (by simp [graphKeys])
    | cons g0 g1 =>
      rw [inlineLoop_cons_eq] at h
      cases hfind : (g0 :: g1).find? (fun kv => kv.2.isEmpty) with
      | none =>
        rw [hfind] at h
        exact Except.noConfusion h
      | some ke =>
        obtain ⟨k, es⟩ := ke
        rw [hfind] at h
        have h2 : (match inlineFunctionInStorage storage k.1 k.2 with
            | .error e => (Except.error e : Except PyErr Storage)
            | .ok storage1 => inlineLoop fuel storage1 (shrinkGraph (g0 :: g1) k)) =
            Except.ok storage' := h
        have hkmem : (k, es) ∈ g0 :: g1 := List.mem_of_find?_eq_some hfind
        have hkempty : es = [] := by
          have hx := List.find?_some hfind
          simpa using hx
        cases hstep : inlineFunctionInStorage storage k.1 k.2 with
        | error e =>
          rw [hstep] at h2
          exact Except.noConfusion h2
        | ok storage1 =>
          rw [hstep] at h2
          obtain ⟨f, hf, f', hf', hupd⟩ :=
            inlineFunctionInStorage_ok_inv storage k.1 k.2 storage1 hstep
          have hf'cf : callFreeB f' = true := by
            apply inline_ok_callFree storage f f' hf'
            intro t ht g2 hg2
            rcases hB k es hkmem f hf t ht with hte | htk
            · rw [hkempty] at hte
              exact absurd hte (List.not_mem_nil t)
            · refine hA t.1 t.2 g2 hg2 ?_
              intro hmem
              exact htk (by rw [← Prod.mk.eta (p := t)]; exact hmem)
          apply ih storage1 (shrinkGraph (g0 :: g1) k) storage' h2
          · intro c n g2 hl hnk
            rw [hupd, lookupFunction_updateStorage] at hl
            cases hl0 : lookupFunction storage c n with
            | none =>
              rw [hl0] at hl
              exact Option.noConfusion hl
            | some gold =>
              rw [hl0] at hl
              simp only [Option.map_some'] at hl
              injection hl with hl'
              by_cases hck : c = k.1 ∧ n = k.2
              · rw [if_pos hck] at hl'
                rw [← hl']
                exact hf'cf
              · rw [if_neg hck] at hl'
                rw [← hl']
                apply hA c n gold hl0
                intro hmem
                rcases keys_cases (g0 :: g1) k (c, n) hmem with heq | hshr
                · exact hck ⟨congrArg Prod.fst heq, congrArg Prod.snd heq⟩
                · exact hnk hshr
          · intro k' es' hk' g2 hg2
            obtain ⟨es0, hk0, hkne, hes'⟩ := mem_shrinkGraph (g0 :: g1) k k' es' hk'
            have hg2' : lookupFunction storage k'.1 k'.2 = some g2 := by
              rw [hupd, lookupFunction_updateStorage_ne] at hg2
              · exact hg2
              · intro hand
                apply hkne
                rw [← Prod.mk.eta (p := k'), ← Prod.mk.eta (p := k), hand.1, hand.2]
            intro t ht
            rcases hB k' es0 hk0 g2 hg2' t ht with hte | htk
            · by_cases htk2 : t = k
              · right
                rw [htk2]
                exact k_not_in_shrink (g0 :: g1) k
              · left
                rw [hes']
                exact (List.mem_erase_of_ne htk2).mpr hte
            · right
              intro hmem
              exact htk (keys_shrink_subset (g0 :: g1) k t hmem)

lemma mem_buildCallGraph (storage : Storage) (toCheck : List String)
    (p : String × String) (es : List (String × String))
    (h : (p, es) ∈ buildCallGraph storage toCheck) :
    ∃ fns fe, p.1 ∈ toCheck ∧ List.lookup p.1 storage.classes = some fns ∧
      fe ∈ fns ∧ p.2 = fe.1 ∧
      es = (get_called_function_names fe.2.instructions).filter
        (fun t => toCheck.contains t.1) := by
  unfold buildCallGraph at h
  rw [List.mem_flatMap] at h
  obtain ⟨cname, hcn, hmem⟩ := h
  cases hlk : List.lookup cname storage.classes with
  | none =>
    rw [hlk] at hmem
    exact absurd hmem (List.not_mem_nil _)
  | some fns =>
    rw [hlk] at hmem
    rw [List.mem_map] at hmem
    obtain ⟨fe, hfe, heq⟩ := hmem
    injection heq with h1 h2
    refine ⟨fns, fe, ?_, ?_, hfe, ?_, h2.symm⟩
    · rw [← h1]
      exact hcn
    · rw [← h1]
      exact hlk
    · rw [← h1]

lemma key_in_toCheck (storage : Storage) (toCheck : List String)
    (p : String × String) (h : p ∈ graphKeys (buildCallGraph storage toCheck)) :
    p.1 ∈ toCheck := by
  unfold graphKeys at h
  rw [List.mem_map] at h
  obtain ⟨kv, hkv, heq⟩ := h
  obtain ⟨fns, fe, h1, -, -, -, -⟩ := mem_buildCallGraph storage toCheck kv.1 kv.2
    (by rw [← Prod.mk.eta (p := kv)] at hkv; exact hkv)
  rw [← heq]
  exact h1

lemma keys_buildCallGraph_cover (storage : Storage) (toCheck : List String)
    (c n : String) (g : AFunction) (hc : c ∈ toCheck)
    (hl : lookupFunction storage c n = some g) :
    (c, n) ∈ graphKeys (buildCallGraph storage toCheck) := by
  unfold lookupFunction at hl
  cases hcls : List.lookup c storage.classes with
  | none =>
    rw [hcls] at hl
    exact Option.noConfusion hl
  | some fns =>
    rw [hcls] at hl
    have hmem : (n, g) ∈ fns := lookup_mem fns n g hl
    unfold graphKeys
    rw [List.mem_map]
    refine ⟨((c, n), (get_called_function_names g.instructions).filter
      (fun t => toCheck.contains t.1)), ?_, rfl⟩
    unfold buildCallGraph
    rw [List.mem_flatMap]
    refine ⟨c, hc, ?_⟩
    rw [hcls]
    exact List.mem_map.mpr ⟨(n, g), hmem, rfl⟩

/-- Claim C3 (confirmed): when `inline_new_classes` succeeds, no function in
storage contains a `CALL` instruction any more — every `CALL` of the processed
classes has been replaced by its inline segment (`me` binding, parameter
`MOV`s, the callee's already-inlined `inlined#i`-cloned body, and the return
`MOV`), under the pipeline invariants that previously finalized classes are
already call-free and function names are unique within a class. -/
theorem inline_new_classes_call_free (storage : Storage) (toCheck : List String)
    (storage' : Storage)
    (hok : inline_new_classes storage toCheck = .ok storage')
    (hout : ∀ c n g, lookupFunction storage c n = some g → c ∉ toCheck →
      callFreeB g = true)
    (hfns : ∀ ce ∈ storage.classes, (ce.2.map Prod.fst).Nodup) :
    ∀ c n g, lookupFunction storage' c n = some g → callFreeB g = true := by
  unfold inline_new_classes at hok
  apply inlineLoop_callFree _ storage (buildCallGraph storage toCheck) storage' hok
  · intro c n g hl hnk
    by_cases hc : c ∈ toCheck
    · exact absurd (keys_buildCallGraph_cover storage toCheck c n g hc hl) hnk
    · exact hout c n g hl hc
  · intro k es hk g hl t ht
    obtain ⟨fns, fe, hkc, hlk, hfe, hk2, hes⟩ :=
      mem_buildCallGraph storage toCheck k es hk
    have hnd : (fns.map Prod.fst).Nodup := hfns (k.1, fns) (lookup_mem _ _ _ hlk)
    have hlf : List.lookup k.2 fns = some fe.2 := by
      rw [hk2]
      exact lookup_eq_of_nodup fns fe.1 fe.2 hnd (by rw [Prod.mk.eta]; exact hfe)
    have hg : g = fe.2 := by
      unfold lookupFunction at hl
      rw [hlk] at hl
      have hl2 : List.lookup k.2 fns = some g := hl
      rw [hlf] at hl2
      injection hl2 with h'
      exact h'.symm
    by_cases htc : toCheck.contains t.1 = true
    · left
      rw [hes, List.mem_filter]
      refine ⟨?_, htc⟩
      rw [mem_called_iff, ← hg]
      exact ht
    · right
      intro hmem
      exact htc (by
        have hx := key_in_toCheck storage toCheck t hmem
        simpa using hx)

/-- Witness for claim C3: inlining the concrete two-class storage
`chainStorage` succeeds with the expected call-free result. -/
theorem inline_new_classes_call_free_witness :
    inline_new_classes chainStorage ["C", "D"] = .ok chainInlined ∧
    callFreeB fnChInlined = true := by
  constructor
  · rfl
  · exact inline_new_classes_call_free chainStorage ["C", "D"] chainInlined
      (by rfl)
      (by
        intro c n g hl hc
        exfalso
        unfold lookupFunction chainStorage at hl
        by_cases h1 : c = "C"
        · exact hc (by rw [h1]; exact List.mem_cons_self _ _)
        · by_cases h2 : c = "D"
          · exact hc (by rw [h2]; simp)
          · have hb1 : (c == "C") = false := beq_eq_false_iff_ne.mpr h1
            have hb2 : (c == "D") = false := beq_eq_false_iff_ne.mpr h2
            simp only [List.lookup, hb1, hb2] at hl
            exact Option.noConfusion hl)
      (by
        intro ce hce
        unfold chainStorage at hce
        rcases List.mem_cons.mp hce with rfl | hce'
        · simp
        · rcases List.mem_cons.mp hce' with rfl | hce''
          · simp
          · exact absurd hce'' (List.not_mem_nil _))
      "C" "h" fnChInlined (by rfl)

lemma inlineLoop_cycle :
    ∀ (fuel : Nat) (storage : Storage) (G : CallGraph),
      (graphKeys G).Nodup →
      (∀ k es, (k, es) ∈ G → (lookupFunction storage k.1 k.2).isSome = true) →
      (∀ k es, (k, es) ∈ G → ∀ g, lookupFunction storage k.1 k.2 = some g →
        (∀ t ∈ callTargets g.instructions,
          (lookupFunction storage t.1 t.2).isSome = true) ∧
        (hasSenderSelfCall g = true → g.argument_registers ≠ [])) →
      CycleIn G →
      inlineLoop fuel storage G =
        .error (.assertionError "detected cycle in call graph, cannot inline") := by
  intro fuel
  induction fuel with
  | zero =>
    intro storage G hnd hD hC hcyc
    obtain ⟨S, hSne, hS⟩ := hcyc
    cases G with
    | nil =>
      exfalso
      cases S with
      | nil => exact hSne rfl
      | cons a S' =>
        obtain ⟨es, hes, -⟩ := hS a (List.mem_cons_self a S')
        exact absurd hes (List.not_mem_nil _)
    | cons g0 g1 => rfl
  | succ fuel ih =>
    intro storage G hnd hD hC hcyc
    obtain ⟨S, hSne, hS⟩ := hcyc
    cases G with
    | nil =>
      exfalso
      cases S with
      | nil => exact hSne rfl
      | cons a S' =>
        obtain ⟨es, hes, -⟩ := hS a (List.mem_cons_self a S')
        exact absurd hes (List.not_mem_nil _)
    | cons g0 g1 =>
      rw [inlineLoop_cons_eq]
      cases hfind : (g0 :: g1).find? (fun kv => kv.2.isEmpty) with
      | none => rfl
      | some ke =>
        obtain ⟨k, es⟩ := ke
        have hkmem : (k, es) ∈ g0 :: g1 := List.mem_of_find?_eq_some hfind
        have hkempty : es = [] := by simpa using List.find?_some hfind
        have hDk := hD k es hkmem
        cases hlk : lookupFunction storage k.1 k.2 with
        | none =>
          rw [hlk] at hDk
          exact absurd hDk (by simp)
        | some f =>
          obtain ⟨hC1, hC2⟩ := hC k es hkmem f hlk
          obtain ⟨f', hf', hstep⟩ :=
            inlineFunctionInStorage_ok storage k.1 k.2 f hlk hC1 hC2
          show (match inlineFunctionInStorage storage k.1 k.2 with
            | .error e => (Except.error e : Except PyErr Storage)
            | .ok storage' => inlineLoop fuel storage' (shrinkGraph (g0 :: g1) k)) =
            .error (.assertionError "detected cycle in call graph, cannot inline")
          rw [hstep]
          show inlineLoop fuel (updateStorage storage k.1 k.2 f')
              (shrinkGraph (g0 :: g1) k) =
            .error (.assertionError "detected cycle in call graph, cannot inline")
          apply ih
          · exact keys_nodup_shrink _ _ hnd
          · intro k' es' hk'
            obtain ⟨es0, hk0, hkne, -⟩ := mem_shrinkGraph _ _ _ _ hk'
            rw [lookupFunction_updateStorage_isSome]
            exact hD k' es0 hk0
          · intro k' es' hk' g2 hg2
            obtain ⟨es0, hk0, hkne, -⟩ := mem_shrinkGraph _ _ _ _ hk'
            have hg2' : lookupFunction storage k'.1 k'.2 = some g2 := by
              rw [lookupFunction_updateStorage_ne] at hg2
              · exact hg2
              · intro hand
                apply hkne
                rw [← Prod.mk.eta (p := k'), ← Prod.mk.eta (p := k), hand.1, hand.2]
            obtain ⟨hc1, hc2⟩ := hC k' es0 hk0 g2 hg2'
            refine ⟨?_, hc2⟩
            intro t ht
            rw [lookupFunction_updateStorage_isSome]
            exact hc1 t ht
          · refine ⟨S, hSne, ?_⟩
            intro a haS
            obtain ⟨es_a, hesa, t, htmem, htS⟩ := hS a haS
            have hak : a ≠ k := by
              intro heq
              subst heq
              have hval := nodup_values_unique (g0 :: g1) a es_a es hnd hesa hkmem
              rw [hval, hkempty] at htmem
              exact absurd htmem (List.not_mem_nil t)
            have htk : t ≠ k := by
              intro heq
              subst heq
              obtain ⟨es_t, hest, t2, ht2, -⟩ := hS t htS
              have hval := nodup_values_unique (g0 :: g1) t es_t es hnd hest hkmem
              rw [hval, hkempty] at ht2
              exact absurd ht2 (List.not_mem_nil t2)
            exact ⟨es_a.erase k, shrink_mem_of_mem _ _ _ _ hesa hak, t,
              (List.mem_erase_of_ne htk).mpr htmem, htS⟩

/-- Claim C4 (corrected): for registered classes whose in-batch call graph
contains a cycle, `inline_new_classes` fails — but by raising
`AssertionError("detected cycle in call graph, cannot inline")`, not
`RecursionError` — under the pipeline invariants: graph nodes are unique,
call targets of the batch resolve in storage, and `sender_is_self` calls sit
in functions with at least one argument. -/
theorem inline_new_classes_cycle_asserts (storage : Storage) (toCheck : List String)
    (hnd : (graphKeys (buildCallGraph storage toCheck)).Nodup)
    (hready : ∀ c n g, c ∈ toCheck → lookupFunction storage c n = some g →
      (∀ t ∈ callTargets g.instructions,
        (lookupFunction storage t.1 t.2).isSome = true) ∧
      (hasSenderSelfCall g = true → g.argument_registers ≠ []))
    (hcyc : CycleIn (buildCallGraph storage toCheck)) :
    inline_new_classes storage toCheck =
      .error (.assertionError "detected cycle in call graph, cannot inline") := by
  unfold inline_new_classes
  apply inlineLoop_cycle _ storage _ hnd
  · intro k es hk
    obtain ⟨fns, fe, hkc, hlk, hfe, hk2, -⟩ :=
      mem_buildCallGraph storage toCheck k es hk
    unfold lookupFunction
    rw [hlk]
    show (List.lookup k.2 fns).isSome = true
    rw [hk2]
    exact lookup_isSome_of_mem fns fe.1 fe.2 (by rw [Prod.mk.eta]; exact hfe)
  · intro k es hk g hg
    obtain ⟨fns, fe, hkc, -, -, -, -⟩ := mem_buildCallGraph storage toCheck k es hk
    exact hready k.1 k.2 g hkc hg
  · exact hcyc

/-- Witness for claim C4 (corrected form): the concrete cyclic storage
`cycleStorage` satisfies the pipeline hypotheses and fails with the
`AssertionError`. -/
theorem inline_new_classes_cycle_asserts_witness :
    inline_new_classes cycleStorage ["A", "B"] =
      .error (.assertionError "detected cycle in call graph, cannot inline") := by
  apply inline_new_classes_cycle_asserts
  · decide
  · intro c n g hc hl
    have hcs : c = "A" ∨ c = "B" := by simpa using hc
    rcases hcs with rfl | rfl
    · have hl2 : List.lookup n [("f", fnAf)] = some g := hl
      by_cases hn : n = "f"
      · subst hn
        simp only [List.lookup, beq_self_eq_true] at hl2
        injection hl2 with h'
        rw [← h']
        constructor
        · decide
        · decide
      · have hbeq : (n == "f") = false := beq_eq_false_iff_ne.mpr hn
        simp only [List.lookup, hbeq] at hl2
        exact Option.noConfusion hl2
    · have hl2 : List.lookup n [("g", fnBg)] = some g := hl
      by_cases hn : n = "g"
      · subst hn
        simp only [List.lookup, beq_self_eq_true] at hl2
        injection hl2 with h'
        rw [← h']
        constructor
        · decide
        · decide
      · have hbeq : (n == "g") = false := beq_eq_false_iff_ne.mpr hn
        simp only [List.lookup, hbeq] at hl2
        exact Option.noConfusion hl2
  · refine ⟨[("A", "f"), ("B", "g")], by simp, ?_⟩
    intro a ha
    rcases List.mem_cons.mp ha with rfl | ha'
    · exact ⟨[("B", "g")], by decide, ("B", "g"), by decide, by simp⟩
    · rcases List.mem_cons.mp ha' with rfl | ha''
      · exact ⟨[("A", "f")], by decide, ("A", "f"), by decide, by simp⟩
      · exact absurd ha'' (List.not_mem_nil _)

/-- Counterexample to claim C4 as stated: the cyclic two-class storage makes
`inline_new_classes` raise `AssertionError`, not the claimed `RecursionError`. -/
theorem inline_cycle_not_recursion_error :
    inline_new_classes cycleStorage ["A", "B"] =
      .error (.assertionError "detected cycle in call graph, cannot inline") ∧
    resultIsRecursionError (inline_new_classes cycleStorage ["A", "B"]) = false := by
  constructor
  · rfl
  · rfl

end Zapper
